import Mathlib

/-!
# Verification of the pseudo-3D RPG rendering core

Shallow embedding of the rendering pipeline of the repository
(`src/engine/raycaster.py`, `src/engine/renderer.py`, `src/engine/mode7.py`,
`src/game/world.py`, `src/config.py`) over exact rational arithmetic.

Python floats are modelled as rationals.  A float operation that would
produce a non-finite IEEE value (the division at the end of the DDA when
the divisor is exactly zero) is modelled by an `Option` result whose
`none` case stands for that non-finite outcome.  Python `int(...)`
truncates toward zero; it is modelled by `pyInt`.  Python `%` on integers
is mathematical modulo (result has the sign of the divisor), which is
`Int.emod`, written `%` on `ℤ` in Lean.  Python `//` on a nonnegative
divisor is `Int.ediv`, written `/` on `ℤ` in Lean.
-/

/-! ## Python numeric primitives -/

/-- Python `int(q)` applied to a real number: truncation toward zero. -/
def pyInt (q : ℚ) : ℤ := if 0 ≤ q then ⌊q⌋ else ⌈q⌉

/-- `config.py`: `SCREEN_WIDTH = 1280`. -/
def SCREEN_WIDTH : ℤ := 1280

/-- `config.py`: `SCREEN_HEIGHT = 720`. -/
def SCREEN_HEIGHT : ℤ := 720

/-- `config.py`: `MAX_RENDER_DISTANCE = 20.0`. -/
def MAX_RENDER_DISTANCE : ℚ := 20

/-! ## Mode-7 floor/ceiling projection (`src/engine/mode7.py`)

`optimized_mode7_render_numpy` (lines 11-65).  The texture-coordinate
computation (lines 43-49) and the fog application (lines 56-63) are also
exposed as standalone definitions because several claims speak about them
in isolation; `mode7Pixel` uses exactly those definitions. -/

/-- `mode7.py` lines 43-49: texture coordinates of a world-space sample,
`tex = int(final * texture_size) % texture_size` followed by the clamp
`max(0, min(texture_size - 1, tex))`. -/
def mode7TexCoord (final_x final_z : ℚ) (texture_width texture_height : ℤ) :
    ℤ × ℤ :=
  let tex_x := pyInt (final_x * texture_width) % texture_width
  let tex_z := pyInt (final_z * texture_height) % texture_height
  (max 0 (min (texture_width - 1) tex_x), max 0 (min (texture_height - 1) tex_z))

/-- `mode7.py` line 58: `fog_factor = max(0.2, 1.0 - distance / max_render_distance)`. -/
def mode7FogFactor (distance max_render_distance : ℚ) : ℚ :=
  max (1/5) (1 - distance / max_render_distance)

/-- NumPy `uint8` cast of a Python int: wrap modulo 256. -/
def uint8 (n : ℤ) : ℕ := (n % 256).toNat

/-- `mode7.py` lines 61-63: one colour channel after fog,
`int(color * fog_factor)` stored into the `uint8` output array. -/
def mode7FoggedChannel (color : ℕ) (distance max_render_distance : ℚ) : ℕ :=
  uint8 (pyInt ((color : ℚ) * mode7FogFactor distance max_render_distance))

/-- `mode7.py` lines 20-63: the value written to `output[x, y]` by
`optimized_mode7_render_numpy` for destination row `y` and column `x`.
Rows with `screen_y >= screen_height or screen_y == p` are skipped by the
`continue` at line 25, leaving the pre-allocated zeros (line 17).
`tex` is the `texture_array` lookup. -/
def mode7Pixel (width : ℤ) (player_x player_y cos_a sin_a : ℚ)
    (tex : ℤ → ℤ → ℕ × ℕ × ℕ) (horizon_height screen_height : ℤ)
    (texture_width texture_height : ℤ) (max_render_distance : ℚ)
    (y x : ℤ) : ℕ × ℕ × ℕ :=
  let p : ℤ := screen_height / 2
  let screen_y := horizon_height + y
  if screen_height ≤ screen_y ∨ screen_y = p then (0, 0, 0) else
  let pos_z : ℚ :=
    if 1/1000 < |((screen_y : ℚ)) - (p : ℚ)| then (p : ℚ) / ((screen_y : ℚ) - (p : ℚ))
    else 1/1000
  let screen_x := x - width / 2
  -- line 33; the division by `width // 2` is exact rational division here,
  -- no theorem below evaluates this branch with `width // 2 = 0`.
  let pos_x : ℚ := if width ≠ 0 then (screen_x : ℚ) * pos_z / ((width / 2 : ℤ) : ℚ) else 0
  let rotated_x := pos_x * cos_a - pos_z * sin_a
  let rotated_z := pos_x * sin_a + pos_z * cos_a
  let final_x := rotated_x + player_x
  let final_z := rotated_z + player_y
  let tc := mode7TexCoord final_x final_z texture_width texture_height
  let c := tex tc.1 tc.2
  (mode7FoggedChannel c.1 pos_z max_render_distance,
   mode7FoggedChannel c.2.1 pos_z max_render_distance,
   mode7FoggedChannel c.2.2 pos_z max_render_distance)

/-! ## Rays and the depth buffer (`src/engine/renderer.py`) -/

/-- One entry of the renderer's `z_buffer`: a finite float or `float('inf')`. -/
inductive Depth where
  | inf : Depth
  | fin (q : ℚ) : Depth
deriving DecidableEq

/-- IEEE comparison `d < w` of a finite float against a depth-buffer entry
(`d < inf` is true). -/
def depthLT (d : ℚ) : Depth → Bool
  | .inf => true
  | .fin q => decide (d < q)

/-- The per-column result dictionary built by `RayCaster.cast_rays`
(`raycaster.py` lines 31-39), restricted to the fields the renderer reads. -/
structure Ray where
  hit : Bool
  distance : ℚ
  texture_id : ℤ
  texture_x : ℚ
  side : ℕ
deriving DecidableEq

/-- `renderer.py` line 24: the batch z-buffer entry for one ray,
`ray['distance'] if ray['hit'] else float('inf')`. -/
def wallDistance (r : Ray) : Depth := if r.hit then .fin r.distance else .inf

/-- `renderer.py` lines 35-37: the distance used by `render_wall_slice`,
replacing an exact zero by `0.001`. -/
def sliceDistance (r : Ray) : ℚ := if r.distance = 0 then 1/1000 else r.distance

/-- `renderer.py` lines 28-30 and 46: the loop
`for i, ray in enumerate(rays)` calls `render_wall_slice(i, ray)` when
`ray['hit'] and ray['distance'] > 0.001`, and the slice writes
`self.z_buffer[x] = distance`.  Only the z-buffer effect of the slice is
modelled; the pixel output of the slice does not affect the depth buffer. -/
def renderWallSlicesZ : List Depth → List Ray → ℕ → List Depth
  | z, [], _ => z
  | z, r :: rs, i =>
      renderWallSlicesZ
        (if r.hit ∧ 1/1000 < r.distance then z.set i (.fin (sliceDistance r)) else z)
        rs (i + 1)

/-- `Renderer.render_walls` (`renderer.py` lines 21-30), z-buffer effect:
line 24-25 rebuild `self.z_buffer` from the rays (discarding the previous
buffer `z0`), then the slice loop overwrites hit columns. -/
def render_walls (z0 : List Depth) (rays : List Ray) : List Depth :=
  let _ := z0
  renderWallSlicesZ (rays.map wallDistance) rays 0

/-! ## Sprite pass (`src/engine/renderer.py` lines 108-205) -/

/-- A billboard sprite: world position, as read by the renderer. -/
structure Sprite where
  x : ℚ
  y : ℚ
deriving DecidableEq

/-- `renderer.py` lines 113-115: squared Euclidean sprite distance.  The code
sorts on `np.sqrt(dx*dx + dy*dy)`; since the square root is strictly
monotone on nonnegative reals, sorting by the square root of this key in
descending order produces exactly the same order as sorting by the key
itself, so the embedding keeps the (rational) squared key. -/
def spriteDist2 (player_x player_y : ℚ) (s : Sprite) : ℚ :=
  (s.x - player_x) * (s.x - player_x) + (s.y - player_y) * (s.y - player_y)

/-- Stable insertion of one element into a descending-sorted list: an element
is placed before the first element with a strictly smaller key, i.e. after
all earlier elements with an equal or larger key. -/
def insertKeyDesc (key : Sprite → ℚ) (a : Sprite) : List Sprite → List Sprite
  | [] => [a]
  | b :: l => if key b ≤ key a then a :: b :: l else b :: insertKeyDesc key a l

/-- Stable descending sort by a rational key.  Python's
`list.sort(key=..., reverse=True)` (`renderer.py` line 119) is a stable
descending sort; any two stable descending sorts of the same list by the
same key coincide, so this insertion sort reproduces it. -/
def sortKeyDesc (key : Sprite → ℚ) : List Sprite → List Sprite
  | [] => []
  | a :: l => insertKeyDesc key a (sortKeyDesc key l)

/-- `Renderer.render_sprites` (`renderer.py` lines 108-123): the sequence of
sprites passed to `render_sprite`, i.e. the input sorted by Euclidean
distance from the player, farthest first. -/
def render_sprites_order (sprites : List Sprite) (player_x player_y : ℚ) :
    List Sprite :=
  sortKeyDesc (spriteDist2 player_x player_y) sprites

/-- `renderer.py` line 139: camera-space forward depth `sprite_y` of a sprite
(`cos_a`, `sin_a` are `cos(-player_angle)`, `sin(-player_angle)`). -/
def spriteCamY (cos_a sin_a player_x player_y : ℚ) (s : Sprite) : ℚ :=
  (s.x - player_x) * sin_a + (s.y - player_y) * cos_a

/-- `renderer.py` line 138: camera-space lateral offset `sprite_x`. -/
def spriteCamX (cos_a sin_a player_x player_y : ℚ) (s : Sprite) : ℚ :=
  (s.x - player_x) * cos_a - (s.y - player_y) * sin_a

/-- `renderer.py` line 146: projected screen column of the sprite centre
(`tanHalfFov` stands for the irrational `np.tan(FOV / 2)`, kept as a
parameter). -/
def spriteScreenX (cos_a sin_a player_x player_y tanHalfFov : ℚ) (s : Sprite) : ℤ :=
  pyInt ((SCREEN_WIDTH : ℚ) / 2 +
    (spriteCamX cos_a sin_a player_x player_y s /
     spriteCamY cos_a sin_a player_x player_y s) *
    ((SCREEN_WIDTH : ℚ) / 2) / tanHalfFov)

/-- `renderer.py` line 149: `sprite_size = int(SCREEN_HEIGHT / sprite_y)`. -/
def spriteScreenSize (cos_a sin_a player_x player_y : ℚ) (s : Sprite) : ℤ :=
  pyInt ((SCREEN_HEIGHT : ℚ) / spriteCamY cos_a sin_a player_x player_y s)

/-- `renderer.py` lines 167-172: `sprite_rect.left = screen_x - sprite_size // 2`. -/
def spriteRectLeft (cos_a sin_a player_x player_y tanHalfFov : ℚ) (s : Sprite) : ℤ :=
  spriteScreenX cos_a sin_a player_x player_y tanHalfFov s -
    spriteScreenSize cos_a sin_a player_x player_y s / 2

/-- `pygame.Rect.right = left + width`, the sprite rect width being `sprite_size`. -/
def spriteRectRight (cos_a sin_a player_x player_y tanHalfFov : ℚ) (s : Sprite) : ℤ :=
  spriteRectLeft cos_a sin_a player_x player_y tanHalfFov s +
    spriteScreenSize cos_a sin_a player_x player_y s

/-- `Renderer.is_sprite_visible` (`renderer.py` lines 195-205): clamp the rect
to the screen, reject empty or out-of-range extents, then
`np.any(depth < self.z_buffer[start_x:end_x])`. -/
def is_sprite_visible (z : List Depth) (rect_left rect_right : ℤ) (depth : ℚ) :
    Bool :=
  let start_x := max 0 rect_left
  let end_x := min SCREEN_WIDTH rect_right
  if end_x ≤ start_x ∨ (z.length : ℤ) < end_x then false
  else ((z.drop start_x.toNat).take (end_x - start_x).toNat).any (depthLT depth)

/-- `Renderer.render_sprite` (`renderer.py` lines 125-180): whether the sprite
is drawn to the screen.  The early returns are lines 127, 142 and 152; both
the textured path (line 175) and the textureless fallback (line 192) blit if
and only if `is_sprite_visible` accepts the sprite rect with depth
`sprite_y`, so texture availability does not influence the decision. -/
def render_sprite_blits (z : List Depth)
    (cos_a sin_a player_x player_y tanHalfFov : ℚ) (distance : ℚ)
    (s : Sprite) : Bool :=
  if MAX_RENDER_DISTANCE < distance then false else
  if spriteCamY cos_a sin_a player_x player_y s ≤ 1/10 then false else
  let screen_x := spriteScreenX cos_a sin_a player_x player_y tanHalfFov s
  let sprite_size := spriteScreenSize cos_a sin_a player_x player_y s
  if screen_x < -sprite_size ∨ SCREEN_WIDTH + sprite_size < screen_x then false else
  is_sprite_visible z
    (spriteRectLeft cos_a sin_a player_x player_y tanHalfFov s)
    (spriteRectRight cos_a sin_a player_x player_y tanHalfFov s)
    (spriteCamY cos_a sin_a player_x player_y s)

/-! ## DDA raycasting (`src/engine/raycaster.py`, `fast_dda`, lines 160-223)

`fast_dda` runs under Numba in `nopython` mode: a float division by zero
does not raise, it produces an IEEE infinity (or NaN for `0.0 / 0.0`).
The embedding therefore returns `Option ℚ` for the final perpendicular
distance, `none` marking a zero divisor, i.e. a non-finite float result.
The stepping loop is embedded with explicit fuel; `ddaFuel` is large
enough for every input (proved below), so the `none` fuel-exhaustion case
of `ddaLoop` never occurs. -/

/-- The arguments of `fast_dda(start_x, start_y, dx, dy, world_array,
world_width, world_height)`.  `world_array` is the NumPy map array of
shape `(world_height, world_width)`, modelled as a list of rows. -/
structure DDAInput where
  start_x : ℚ
  start_y : ℚ
  dx : ℚ
  dy : ℚ
  world_array : List (List ℤ)
  world_width : ℤ
  world_height : ℤ

/-- `raycaster.py` lines 167-170: `delta_dist_x`, with the `1e30` sentinel for
`dx == 0`. -/
def delta_dist_x (P : DDAInput) : ℚ := if P.dx = 0 then 10^30 else |1 / P.dx|

/-- `raycaster.py` lines 172-175: `delta_dist_y`. -/
def delta_dist_y (P : DDAInput) : ℚ := if P.dy = 0 then 10^30 else |1 / P.dy|

/-- `raycaster.py` lines 177-182: `step_x`. -/
def step_x (P : DDAInput) : ℤ := if P.dx < 0 then -1 else 1

/-- `raycaster.py` lines 184-189: `step_y`. -/
def step_y (P : DDAInput) : ℤ := if P.dy < 0 then -1 else 1

/-- `raycaster.py` line 164: `map_x = int(x)`. -/
def map_x_init (P : DDAInput) : ℤ := pyInt P.start_x

/-- `raycaster.py` line 165: `map_y = int(y)`. -/
def map_y_init (P : DDAInput) : ℤ := pyInt P.start_y

/-- `raycaster.py` lines 177-182: initial `side_dist_x`. -/
def side_dist_x_init (P : DDAInput) : ℚ :=
  if P.dx < 0 then (P.start_x - map_x_init P) * delta_dist_x P
  else ((map_x_init P : ℚ) + 1 - P.start_x) * delta_dist_x P

/-- `raycaster.py` lines 184-189: initial `side_dist_y`. -/
def side_dist_y_init (P : DDAInput) : ℚ :=
  if P.dy < 0 then (P.start_y - map_y_init P) * delta_dist_y P
  else ((map_y_init P : ℚ) + 1 - P.start_y) * delta_dist_y P

/-- The mutable loop state of `fast_dda`. -/
structure DDAState where
  map_x : ℤ
  map_y : ℤ
  side_dist_x : ℚ
  side_dist_y : ℚ
  side : ℕ
deriving DecidableEq

/-- `raycaster.py` lines 191-192 (and 164-165): the state on entry to the
`while` loop. -/
def initState (P : DDAInput) : DDAState :=
  { map_x := map_x_init P, map_y := map_y_init P,
    side_dist_x := side_dist_x_init P, side_dist_y := side_dist_y_init P,
    side := 0 }

/-- `raycaster.py` lines 196-203: one jump to the next map square. -/
def ddaStep (P : DDAInput) (s : DDAState) : DDAState :=
  if s.side_dist_x < s.side_dist_y then
    { map_x := s.map_x + step_x P, map_y := s.map_y,
      side_dist_x := s.side_dist_x + delta_dist_x P,
      side_dist_y := s.side_dist_y, side := 0 }
  else
    { map_x := s.map_x, map_y := s.map_y + step_y P,
      side_dist_x := s.side_dist_x,
      side_dist_y := s.side_dist_y + delta_dist_y P, side := 1 }

/-- `raycaster.py` lines 205-206: the out-of-bounds test after a step. -/
def oob (P : DDAInput) (s : DDAState) : Prop :=
  s.map_x < 0 ∨ P.world_width ≤ s.map_x ∨ s.map_y < 0 ∨ P.world_height ≤ s.map_y

instance (P : DDAInput) (s : DDAState) : Decidable (oob P s) := by
  unfold oob; infer_instance

/-- Read `world_array[row, col]`.  The result is `none` when the index pair
falls outside the stored array, which would be an out-of-range access; the
loop below only reads after its own bounds check, so this never happens
when the array shape matches `world_width`/`world_height`. -/
def arrGet (g : List (List ℤ)) (row col : ℤ) : Option ℤ :=
  if 0 ≤ row ∧ 0 ≤ col then (g[row.toNat]?).bind fun r => r[col.toNat]? else none

/-- Outcome of the `while not hit` loop of `fast_dda`: the exit state with the
texture id chosen at the hit (lines 205-213), or the marker for an
out-of-range array read. -/
inductive DDAOutcome where
  | ok (s : DDAState) (texture_id : ℤ) : DDAOutcome
  | badIndex : DDAOutcome
deriving DecidableEq

/-- `raycaster.py` lines 195-213: the `while not hit` loop.  A step that lands
outside the grid is a hit with the default wall id 1 (lines 205-208); a step
into a cell with positive value is a hit with that cell's id (lines
209-211); otherwise the loop continues.  `none` means the fuel ran out. -/
def ddaLoop (P : DDAInput) : ℕ → DDAState → Option DDAOutcome
  | 0, _ => none
  | fuel + 1, s =>
      let t := ddaStep P s
      if oob P t then some (.ok t 1)
      else
        match arrGet P.world_array t.map_y t.map_x with
        | none => some .badIndex
        | some v => if 0 < v then some (.ok t v) else ddaLoop P fuel t

/-- Fuel that always suffices (proved in the termination theorem below). -/
def ddaFuel (P : DDAInput) : ℕ :=
  P.world_width.toNat + P.world_height.toNat + 4

/-- `raycaster.py` lines 215-218: numerator of the perpendicular distance. -/
def perpNum (P : DDAInput) (s : DDAState) : ℚ :=
  if s.side = 0 then (s.map_x : ℚ) - P.start_x + ((1 - step_x P : ℤ) : ℚ) / 2
  else (s.map_y : ℚ) - P.start_y + ((1 - step_y P : ℤ) : ℚ) / 2

/-- `raycaster.py` lines 215-218: divisor of the perpendicular distance. -/
def perpDen (P : DDAInput) (s : DDAState) : ℚ := if s.side = 0 then P.dx else P.dy

/-- `raycaster.py` lines 215-218: `perp_wall_dist`; `none` when the float
division has a zero divisor and the result is non-finite. -/
def perpDist (P : DDAInput) (s : DDAState) : Option ℚ :=
  if perpDen P s = 0 then none else some (perpNum P s / perpDen P s)

/-- `raycaster.py` line 220: the exact hit coordinate on the axis parallel to
the hit face, before taking its fractional part. -/
def wallXRaw (P : DDAInput) (side : ℕ) (d : ℚ) : ℚ :=
  if side = 0 then P.start_y + d * P.dy else P.start_x + d * P.dx

/-- `raycaster.py` line 221: `wall_x -= int(wall_x)`. -/
def textureX (coord : ℚ) : ℚ := coord - pyInt coord

/-- The tuple returned by `fast_dda` (line 223). -/
structure FastDDAResult where
  hit : Bool
  distance : Option ℚ
  texture_id : ℤ
  texture_x : Option ℚ
  side : ℕ
  map_x : ℤ
  map_y : ℤ
deriving DecidableEq

/-- `fast_dda` (`raycaster.py` lines 160-223).  `none` covers the two cases
that cannot arise in a run of the real function but are not excluded by the
shape of the embedding: fuel exhaustion and an out-of-range array read. -/
def fast_dda (P : DDAInput) : Option FastDDAResult :=
  match ddaLoop P (ddaFuel P) (initState P) with
  | none => none
  | some .badIndex => none
  | some (.ok s tid) =>
      match perpDist P s with
      | none =>
          some { hit := true, distance := none, texture_id := tid,
                 texture_x := none, side := s.side,
                 map_x := s.map_x, map_y := s.map_y }
      | some d =>
          some { hit := true, distance := some d, texture_id := tid,
                 texture_x := some (textureX (wallXRaw P s.side d)),
                 side := s.side, map_x := s.map_x, map_y := s.map_y }

/-- The map array has exactly `world_height` rows of length `world_width`,
as holds for the `world.get_map_array()` array whose shape the caller
passes alongside it (`raycaster.py` lines 27-29). -/
def gridWF (P : DDAInput) : Prop :=
  P.world_array.length = P.world_height.toNat ∧
    (∀ row ∈ P.world_array, row.length = P.world_width.toNat)

instance (P : DDAInput) : Decidable (gridWF P) := by
  unfold gridWF; infer_instance

/-- `World.get_cell` (`src/game/world.py` lines 284-288): in-bounds cells read
the map array, everything else is the wall value 1. -/
def get_cell (width height : ℤ) (map_data : ℤ → ℤ → ℤ) (x y : ℤ) : ℤ :=
  if 0 ≤ x ∧ x < width ∧ 0 ≤ y ∧ y < height then map_data y x else 1

/-- Termination measure for the DDA loop: how many more steps each axis can
take before leaving the grid in its fixed stepping direction. -/
def ddaMeasure (P : DDAInput) (s : DDAState) : ℕ :=
  (if step_x P = 1 then P.world_width - s.map_x else s.map_x + 1).toNat +
    (if step_y P = 1 then P.world_height - s.map_y else s.map_y + 1).toNat

/-- Loop invariant: each cell index only ever moves in its fixed stepping
direction, away from the starting cell. -/
def ddaMono (P : DDAInput) (s : DDAState) : Prop :=
  (step_x P = 1 → map_x_init P ≤ s.map_x) ∧
    (step_x P = -1 → s.map_x ≤ map_x_init P) ∧
    (step_y P = 1 → map_y_init P ≤ s.map_y) ∧
    (step_y P = -1 → s.map_y ≤ map_y_init P)

/-- Remaining y-axis budget: how many more y-steps can occur before the y
cell index leaves the grid in its fixed stepping direction. -/
def ddaBudgetY (P : DDAInput) (s : DDAState) : ℤ :=
  if step_y P = 1 then P.world_height - s.map_y else s.map_y + 1

/-- Remaining x-axis budget, mirror of `ddaBudgetY`. -/
def ddaBudgetX (P : DDAInput) (s : DDAState) : ℤ :=
  if step_x P = 1 then P.world_width - s.map_x else s.map_x + 1

/-- Concrete counterexample input for the axis-aligned-ray claim: camera at
`(1 - 10⁻¹⁶, 1/2)` in an empty 1×1 grid, direction `(0, 10⁻²⁰)`.  Here
`side_dist_x = 10⁻¹⁶·10³⁰ = 10¹⁴` is smaller than
`side_dist_y = 5·10¹⁹`, so the first step is an x-step even though
`dx = 0`, and the exit division divides by `dx = 0`. -/
def c4Input : DDAInput :=
  { start_x := 1 - 1/10^16, start_y := 1/2, dx := 0, dy := 1/10^20,
    world_array := [[0]], world_width := 1, world_height := 1 }

/-- Loop invariant for the hit-coordinate analysis (meaningful when both
direction components are nonzero): each `side_dist` is the exact ray
parameter of the next grid-line crossing on its axis, and neither pending
crossing lies before the entry into the current cell on the other axis. -/
def ddaCoordInv (P : DDAInput) (s : DDAState) : Prop :=
  s.side_dist_x = ((s.map_x : ℚ) + ((1 + step_x P : ℤ) : ℚ) / 2 - P.start_x) / P.dx ∧
    s.side_dist_y = ((s.map_y : ℚ) + ((1 + step_y P : ℤ) : ℚ) / 2 - P.start_y) / P.dy ∧
    s.side_dist_y - delta_dist_y P ≤ s.side_dist_x ∧
    s.side_dist_x - delta_dist_x P ≤ s.side_dist_y

/-- Concrete counterexample input for the texture-U claim: camera outside the
grid at `(1/2, -11/2)` with direction `(-1, 9/10)`; the ray exits the grid
through the left edge at the point `(−1, −101/20)`, whose y-coordinate is
negative, so `int()` truncation does not take the fractional part. -/
def c6Input : DDAInput :=
  { start_x := 1/2, start_y := -11/2, dx := -1, dy := 9/10,
    world_array := [[0, 0, 0], [0, 0, 0], [0, 0, 0]],
    world_width := 3, world_height := 3 }

/-! ## Helper lemmas -/

theorem pyInt_eq_floor {q : ℚ} (h : 0 ≤ q) : pyInt q = ⌊q⌋ := if_pos h

theorem pyInt_gt_sub_one (q : ℚ) : q - 1 < (pyInt q : ℚ) := by
  unfold pyInt
  split
  · have := Int.lt_floor_add_one q
    linarith
  · have := Int.le_ceil q
    linarith

theorem pyInt_eq_of_nonneg (q : ℚ) (n : ℤ) (h0 : 0 ≤ q) (hl : (n : ℚ) ≤ q)
    (hu : q < n + 1) : pyInt q = n := by
  unfold pyInt
  rw [if_pos h0]
  exact Int.floor_eq_iff.2 ⟨hl, hu⟩

theorem pyInt_eq_of_neg (q : ℚ) (n : ℤ) (h0 : ¬ 0 ≤ q) (hl : (n : ℚ) - 1 < q)
    (hu : q ≤ n) : pyInt q = n := by
  unfold pyInt
  rw [if_neg h0]
  exact Int.ceil_eq_iff.2 ⟨hl, hu⟩

theorem listSetSame {α : Type} :
    ∀ (l : List α) (i : ℕ) (a : α), l[i]? = some a → l.set i a = l
  | [], _, _, h => by simp at h
  | b :: t, 0, a, h => by
      simp only [List.getElem?_cons_zero, Option.some.injEq] at h
      simp [h]
  | b :: t, i + 1, a, h => by
      simp only [List.getElem?_cons_succ] at h
      simp [List.set, listSetSame t i a h]

theorem renderWallSlicesZ_preserve :
    ∀ (rays : List Ray) (z : List Depth) (i0 : ℕ),
      (∀ k (hk : k < rays.length), z[i0 + k]? = some (wallDistance rays[k])) →
      renderWallSlicesZ z rays i0 = z
  | [], z, i0, _ => rfl
  | r :: rs, z, i0, hyp => by
      have h0 : z[i0]? = some (wallDistance r) := by
        have := hyp 0 (by simp)
        simpa using this
      have hshift : ∀ k (hk : k < rs.length),
          z[(i0 + 1) + k]? = some (wallDistance rs[k]) := by
        intro k hk
        have := hyp (k + 1) (by simpa using Nat.succ_lt_succ hk)
        have hidx : i0 + (k + 1) = (i0 + 1) + k := by omega
        simpa [hidx] using this
      unfold renderWallSlicesZ
      split
      · next hcond =>
          have hhit : r.hit = true := hcond.1
          have hne : r.distance ≠ 0 := by
            intro h0'
            have := hcond.2
            rw [h0'] at this
            norm_num at this
          have hval : wallDistance r = Depth.fin (sliceDistance r) := by
            simp [wallDistance, sliceDistance, hhit, hne]
          rw [hval] at h0
          rw [listSetSame z i0 _ h0]
          exact renderWallSlicesZ_preserve rs z (i0 + 1) hshift
      · exact renderWallSlicesZ_preserve rs z (i0 + 1) hshift

/-! ## C1: depth buffer round-trip after the wall pass -/

/-- Claim C1: after `Renderer.render_walls` on a ray list of screen width,
every column's depth-buffer entry is exactly that column's ray distance when
the ray hit, and infinity when it did not, regardless of the buffer's prior
contents `z0`. -/
theorem render_walls_depth_roundtrip (z0 : List Depth) (rays : List Ray)
    (hlen : (rays.length : ℤ) = SCREEN_WIDTH) (i : ℕ) (h : i < rays.length) :
    (render_walls z0 rays)[i]? =
      some (if rays[i].hit then Depth.fin rays[i].distance else Depth.inf) := by
  have hmap : ∀ k (hk : k < rays.length),
      (rays.map wallDistance)[0 + k]? = some (wallDistance rays[k]) := by
    intro k hk
    simp [List.getElem?_map, List.getElem?_eq_getElem hk]
  have := renderWallSlicesZ_preserve rays (rays.map wallDistance) 0 hmap
  unfold render_walls
  rw [this]
  simp [List.getElem?_map, List.getElem?_eq_getElem h, wallDistance]

/-- Witness for C1 at a concrete 1280-ray list. -/
theorem render_walls_depth_roundtrip_witness :
    (((List.replicate 1280 (Ray.mk true 5 1 0 0)).length : ℤ) = SCREEN_WIDTH ∧
      0 < (List.replicate 1280 (Ray.mk true 5 1 0 0)).length) ∧
    (render_walls [] (List.replicate 1280 (Ray.mk true 5 1 0 0)))[0]? =
      some (Depth.fin 5) := by
  have hlen : (List.replicate 1280 (Ray.mk true 5 1 0 0)).length = 1280 :=
    List.length_replicate 1280 _
  have hl2 : ((List.replicate 1280 (Ray.mk true 5 1 0 0)).length : ℤ) = SCREEN_WIDTH := by
    rw [hlen]; rfl
  have hpos : 0 < (List.replicate 1280 (Ray.mk true 5 1 0 0)).length := by
    rw [hlen]; norm_num
  refine ⟨⟨hl2, hpos⟩, ?_⟩
  have := render_walls_depth_roundtrip []
    (List.replicate 1280 (Ray.mk true 5 1 0 0)) hl2 0 hpos
  rw [this]
  rw [List.getElem_replicate]
  rfl

/-! ## C3: sprite draw order -/

theorem insertKeyDesc_perm (key : Sprite → ℚ) (a : Sprite) :
    ∀ l : List Sprite, (insertKeyDesc key a l).Perm (a :: l)
  | [] => by simp [insertKeyDesc]
  | b :: l => by
      unfold insertKeyDesc
      split
      · exact List.Perm.refl _
      · exact ((insertKeyDesc_perm key a l).cons b).trans (List.Perm.swap a b l)

theorem insertKeyDesc_pairwise (key : Sprite → ℚ) (a : Sprite) :
    ∀ {l : List Sprite},
      l.Pairwise (fun u v => key v ≤ key u) →
      (insertKeyDesc key a l).Pairwise (fun u v => key v ≤ key u) := by
  intro l
  induction l with
  | nil => intro _; simp [insertKeyDesc]
  | cons b t ih =>
      intro h
      rw [List.pairwise_cons] at h
      unfold insertKeyDesc
      split
      · next hba =>
          refine List.pairwise_cons.2 ⟨?_, List.pairwise_cons.2 ⟨h.1, h.2⟩⟩
          intro c hc
          rcases List.mem_cons.1 hc with rfl | hct
          · exact hba
          · exact le_trans (h.1 c hct) hba
      · next hba =>
          refine List.pairwise_cons.2 ⟨?_, ih h.2⟩
          intro c hc
          have := (insertKeyDesc_perm key a t).mem_iff.1 hc
          rcases List.mem_cons.1 this with rfl | hct
          · exact le_of_lt (lt_of_not_le hba)
          · exact h.1 c hct

theorem sortKeyDesc_perm (key : Sprite → ℚ) :
    ∀ l : List Sprite, (sortKeyDesc key l).Perm l
  | [] => List.Perm.refl _
  | a :: l =>
      (insertKeyDesc_perm key a (sortKeyDesc key l)).trans
        ((sortKeyDesc_perm key l).cons a)

theorem sortKeyDesc_pairwise (key : Sprite → ℚ) :
    ∀ l : List Sprite, (sortKeyDesc key l).Pairwise (fun u v => key v ≤ key u)
  | [] => List.Pairwise.nil
  | a :: l => insertKeyDesc_pairwise key a (sortKeyDesc_pairwise key l)

/-- Counterexample to C3: with the player at the origin facing angle 0
(`cos(-angle) = 1`, `sin(-angle) = 0`, so `camY` of a sprite is its
y-offset), the three sprites at camera depths `[5, 2, 8]` are drawn in the
order of camera depths `[2, 8, 5]` — the code sorts by Euclidean distance
(`5`, `65/8`, `8`), not by `camY`, so the claimed order `[8, 5, 2]` is not
produced. -/
theorem render_sprites_order_not_by_camY :
    ((render_sprites_order [Sprite.mk 0 5, Sprite.mk (63/8) 2, Sprite.mk 0 8] 0 0).map
        (spriteCamY 1 0 0 0) = [2, 8, 5]) ∧
    ([2, 8, 5] : List ℚ) ≠ [8, 5, 2] := by
  constructor
  · norm_num [render_sprites_order, sortKeyDesc, insertKeyDesc, spriteDist2,
      spriteCamY]
  · intro h
    have := List.head_eq_of_cons_eq h
    norm_num at this

/-- Amended C3: `Renderer.render_sprites` draws the sprites in order of
non-increasing Euclidean distance from the player (farthest first) — the
sort key is the Euclidean distance `sqrt(dx*dx + dy*dy)`, not the
camera-space forward depth `camY`.  The draw sequence is a permutation of
the input sorted descending by that key. -/
theorem render_sprites_order_by_euclidean (sprites : List Sprite) (px py : ℚ) :
    ((render_sprites_order sprites px py).Pairwise
      (fun a b => spriteDist2 px py b ≤ spriteDist2 px py a)) ∧
    (render_sprites_order sprites px py).Perm sprites :=
  ⟨sortKeyDesc_pairwise _ sprites, sortKeyDesc_perm _ sprites⟩

/-! ## C5: out-of-bounds stepping and `get_cell` -/

/-- Claim C5: a DDA step that leaves the grid terminates the cast as a wall
hit with the default surface id 1 (no error is raised), and
`World.get_cell` returns the wall value 1 at every out-of-bounds
coordinate. -/
theorem dda_oob_closed_world :
    (∀ (P : DDAInput) (s : DDAState) (fuel : ℕ), oob P (ddaStep P s) →
        ddaLoop P (fuel + 1) s = some (.ok (ddaStep P s) 1)) ∧
    (∀ (width height : ℤ) (map_data : ℤ → ℤ → ℤ) (x y : ℤ),
        ¬(0 ≤ x ∧ x < width ∧ 0 ≤ y ∧ y < height) →
        get_cell width height map_data x y = 1) := by
  constructor
  · intro P s fuel h
    unfold ddaLoop
    simp [h]
  · intro width height map_data x y h
    unfold get_cell
    exact if_neg h

/-- Witness for C5: a step from cell (0,0) of an empty 1×1 grid moves to
`map_x = 1`, which is out of bounds, and the loop reports a hit with
surface id 1; `get_cell` outside a 1×1 grid returns 1. -/
theorem dda_oob_closed_world_witness :
    (oob (DDAInput.mk 0 0 0 0 [[0]] 1 1) (ddaStep (DDAInput.mk 0 0 0 0 [[0]] 1 1) (DDAState.mk 0 0 0 1 0)) ∧
      ddaLoop (DDAInput.mk 0 0 0 0 [[0]] 1 1) 1 (DDAState.mk 0 0 0 1 0) =
        some (.ok (ddaStep (DDAInput.mk 0 0 0 0 [[0]] 1 1) (DDAState.mk 0 0 0 1 0)) 1)) ∧
    (¬((0 : ℤ) ≤ 5 ∧ (5 : ℤ) < 1 ∧ (0 : ℤ) ≤ 0 ∧ (0 : ℤ) < 1) ∧
      get_cell 1 1 (fun _ _ => 0) 5 0 = 1) := by
  have hoob : oob (DDAInput.mk 0 0 0 0 [[0]] 1 1)
      (ddaStep (DDAInput.mk 0 0 0 0 [[0]] 1 1) (DDAState.mk 0 0 0 1 0)) := by
    norm_num [ddaStep, oob, step_x, delta_dist_x]
  have hnb : ¬((0 : ℤ) ≤ 5 ∧ (5 : ℤ) < 1 ∧ (0 : ℤ) ≤ 0 ∧ (0 : ℤ) < 1) := by norm_num
  exact ⟨⟨hoob, dda_oob_closed_world.1 _ _ 0 hoob⟩,
    ⟨hnb, dda_oob_closed_world.2 1 1 (fun _ _ => 0) 5 0 hnb⟩⟩

/-! ## C7: Mode-7 texture tiling -/

/-- Counterexample to C7: with `k = -1`, `m = 0`, `N = 1`, `T = 64`, sampling
at `(k + 0.3, m + 0.7) = (-0.7, 0.7)` gives `tex_x = int(-44.8) % 64 = 20`
while `(k + N + 0.3, m + N + 0.7) = (0.3, 1.7)` gives
`tex_x = int(19.2) % 64 = 19`: `int()` truncates toward zero, so the wrap
is not periodic across zero. -/
theorem mode7TexCoord_not_periodic :
    (mode7TexCoord (-7/10) (7/10) 64 64 ≠ mode7TexCoord (3/10) (17/10) 64 64) ∧
    (-7/10 : ℚ) = (-1 : ℤ) + 3/10 ∧ (7/10 : ℚ) = (0 : ℤ) + 7/10 ∧
    (3/10 : ℚ) = ((-1 : ℤ) + 1) + 3/10 ∧ (17/10 : ℚ) = ((0 : ℤ) + 1) + 7/10 := by
  have e1 : mode7TexCoord (-7/10) (7/10) 64 64 = (20, 44) := by
    unfold mode7TexCoord
    rw [show ((-7/10 : ℚ) * ((64 : ℤ) : ℚ)) = -224/5 by norm_num,
        show ((7/10 : ℚ) * ((64 : ℤ) : ℚ)) = 224/5 by norm_num,
        pyInt_eq_of_neg (-224/5) (-44) (by norm_num) (by norm_num) (by norm_num),
        pyInt_eq_of_nonneg (224/5) 44 (by norm_num) (by norm_num) (by norm_num)]
    norm_num
  have e2 : mode7TexCoord (3/10) (17/10) 64 64 = (19, 44) := by
    unfold mode7TexCoord
    rw [show ((3/10 : ℚ) * ((64 : ℤ) : ℚ)) = 96/5 by norm_num,
        show ((17/10 : ℚ) * ((64 : ℤ) : ℚ)) = 544/5 by norm_num,
        pyInt_eq_of_nonneg (96/5) 19 (by norm_num) (by norm_num) (by norm_num),
        pyInt_eq_of_nonneg (544/5) 108 (by norm_num) (by norm_num) (by norm_num)]
    norm_num
  refine ⟨?_, by norm_num, by norm_num, by norm_num, by norm_num⟩
  rw [e1, e2]
  norm_num

/-- Amended C7: the texture-coordinate computation is periodic with period 1
in each world coordinate as long as all sampled world coordinates are
nonnegative (for negative coordinates the `int()` truncation breaks the
periodicity, as the counterexample shows). -/
theorem mode7TexCoord_periodic_nonneg (fx fz : ℚ) (N : ℤ) (T U : ℤ)
    (hT : 0 < T) (hU : 0 < U) (hx : 0 ≤ fx) (hz : 0 ≤ fz)
    (hxN : 0 ≤ fx + N) (hzN : 0 ≤ fz + N) :
    mode7TexCoord (fx + N) (fz + N) T U = mode7TexCoord fx fz T U := by
  have key : ∀ (a : ℚ) (S : ℤ), 0 ≤ a → 0 ≤ a + N → 0 < S →
      pyInt ((a + N) * S) % S = pyInt (a * S) % S := by
    intro a S ha haN hS
    have hS0 : (0 : ℚ) ≤ (S : ℚ) := by exact_mod_cast le_of_lt hS
    have h1 : pyInt ((a + N) * S) = ⌊(a + N) * (S : ℚ)⌋ :=
      pyInt_eq_floor (mul_nonneg haN hS0)
    have h2 : pyInt (a * S) = ⌊a * (S : ℚ)⌋ := pyInt_eq_floor (mul_nonneg ha hS0)
    have hdist : (a + N) * (S : ℚ) = a * S + ((N * S : ℤ) : ℚ) := by
      push_cast
      ring
    rw [h1, h2, hdist, Int.floor_add_int]
    have : ⌊a * (S : ℚ)⌋ + N * S = ⌊a * (S : ℚ)⌋ + S * N := by ring
    rw [this, Int.add_mul_emod_self_left]
  unfold mode7TexCoord
  rw [key fx T hx hxN hT, key fz U hz hzN hU]

/-- Witness for the amended C7 at `(0.3, 0.7)`, `N = 2`, `T = U = 64`. -/
theorem mode7TexCoord_periodic_nonneg_witness :
    ((0 : ℤ) < 64 ∧ (0 : ℚ) ≤ 3/10 ∧ (0 : ℚ) ≤ 7/10 ∧ (0 : ℚ) ≤ 3/10 + (2 : ℤ) ∧
      (0 : ℚ) ≤ 7/10 + (2 : ℤ)) ∧
    mode7TexCoord (3/10 + (2 : ℤ)) (7/10 + (2 : ℤ)) 64 64 =
      mode7TexCoord (3/10) (7/10) 64 64 := by
  refine ⟨⟨by norm_num, by norm_num, by norm_num, by norm_num, by norm_num⟩, ?_⟩
  exact mode7TexCoord_periodic_nonneg (3/10) (7/10) 2 64 64 (by norm_num)
    (by norm_num) (by norm_num) (by norm_num) (by norm_num) (by norm_num)

/-! ## C8: fog monotonicity -/

/-- Claim C8: for two Mode-7 samples of the same colour channel value at
depths `d1 < d2`, both nonnegative and below the maximum render distance,
the fog-adjusted channel at `d1` is at least the one at `d2`; the fog
factor `max(0.2, 1 - posZ / maxRenderDistance)` is non-increasing in depth
and multiplies the sampled colour.  This holds for every channel value up
to 255, hence for each RGB channel of any sampled colour. -/
theorem mode7_fog_monotone (c : ℕ) (d1 d2 m : ℚ) (hc : c ≤ 255)
    (h0 : 0 ≤ d1) (h12 : d1 < d2) (h2m : d2 < m) :
    mode7FoggedChannel c d2 m ≤ mode7FoggedChannel c d1 m := by
  have hm : 0 < m := lt_of_le_of_lt h0 (lt_trans h12 h2m)
  have hdiv : d1 / m ≤ d2 / m := (div_le_div_iff_of_pos_right hm).2 (le_of_lt h12)
  have hfog21 : mode7FogFactor d2 m ≤ mode7FogFactor d1 m := by
    unfold mode7FogFactor
    exact max_le_max (le_refl _) (by linarith)
  have hfog1le : mode7FogFactor d1 m ≤ 1 := by
    unfold mode7FogFactor
    have hq : 0 ≤ d1 / m := div_nonneg h0 (le_of_lt hm)
    exact max_le (by norm_num) (by linarith)
  have hfog20 : 0 ≤ mode7FogFactor d2 m :=
    le_trans (by norm_num) (le_max_left (1/5) (1 - d2 / m))
  have hcq : (0 : ℚ) ≤ (c : ℚ) := Nat.cast_nonneg c
  have hprod21 : (c : ℚ) * mode7FogFactor d2 m ≤ (c : ℚ) * mode7FogFactor d1 m :=
    mul_le_mul_of_nonneg_left hfog21 hcq
  have hprod20 : 0 ≤ (c : ℚ) * mode7FogFactor d2 m := mul_nonneg hcq hfog20
  have hprod10 : 0 ≤ (c : ℚ) * mode7FogFactor d1 m := le_trans hprod20 hprod21
  have hprod1le : (c : ℚ) * mode7FogFactor d1 m ≤ 255 := by
    have hc255 : (c : ℚ) ≤ 255 := by exact_mod_cast hc
    calc (c : ℚ) * mode7FogFactor d1 m ≤ 255 * 1 :=
          mul_le_mul hc255 hfog1le (le_trans hfog20 hfog21) (by norm_num)
      _ = 255 := by norm_num
  have hn21 : ⌊(c : ℚ) * mode7FogFactor d2 m⌋ ≤ ⌊(c : ℚ) * mode7FogFactor d1 m⌋ :=
    Int.floor_le_floor hprod21
  have hn20 : 0 ≤ ⌊(c : ℚ) * mode7FogFactor d2 m⌋ := Int.floor_nonneg.2 hprod20
  have hn10 : 0 ≤ ⌊(c : ℚ) * mode7FogFactor d1 m⌋ := Int.floor_nonneg.2 hprod10
  have hn1le : ⌊(c : ℚ) * mode7FogFactor d1 m⌋ ≤ 255 := by
    have : ((⌊(c : ℚ) * mode7FogFactor d1 m⌋ : ℚ)) ≤ 255 :=
      le_trans (Int.floor_le _) hprod1le
    exact_mod_cast this
  unfold mode7FoggedChannel uint8
  rw [pyInt_eq_floor hprod20, pyInt_eq_floor hprod10,
      Int.emod_eq_of_lt hn20 (by omega), Int.emod_eq_of_lt hn10 (by omega)]
  exact Int.toNat_le_toNat hn21

/-- Witness for C8 at channel value 200, depths 1 and 2, max distance 20. -/
theorem mode7_fog_monotone_witness :
    ((200 : ℕ) ≤ 255 ∧ (0 : ℚ) ≤ 1 ∧ (1 : ℚ) < 2 ∧ (2 : ℚ) < 20) ∧
    mode7FoggedChannel 200 2 20 ≤ mode7FoggedChannel 200 1 20 :=
  ⟨⟨by norm_num, by norm_num, by norm_num, by norm_num⟩,
    mode7_fog_monotone 200 1 2 20 (by norm_num) (by norm_num) (by norm_num)
      (by norm_num)⟩


/-! ## DDA loop: termination and exit properties -/

theorem step_x_cases (P : DDAInput) : step_x P = 1 ∨ step_x P = -1 := by
  unfold step_x
  split
  · exact Or.inr rfl
  · exact Or.inl rfl

theorem step_y_cases (P : DDAInput) : step_y P = 1 ∨ step_y P = -1 := by
  unfold step_y
  split
  · exact Or.inr rfl
  · exact Or.inl rfl

theorem step_x_of_dx_zero (P : DDAInput) (h : P.dx = 0) : step_x P = 1 := by
  unfold step_x
  rw [if_neg]
  rw [h]
  exact lt_irrefl 0

theorem step_y_of_dy_zero (P : DDAInput) (h : P.dy = 0) : step_y P = 1 := by
  unfold step_y
  rw [if_neg]
  rw [h]
  exact lt_irrefl 0

theorem ddaMeasure_step_lt (P : DDAInput) (s : DDAState) (hin : ¬ oob P s) :
    ddaMeasure P (ddaStep P s) < ddaMeasure P s := by
  unfold oob at hin
  push_neg at hin
  obtain ⟨h1, h2, h3, h4⟩ := hin
  unfold ddaStep ddaMeasure
  rcases step_x_cases P with hsx | hsx <;> rcases step_y_cases P with hsy | hsy <;>
    by_cases hbr : s.side_dist_x < s.side_dist_y <;>
      simp only [hbr, if_true, if_false, hsx, hsy] <;> simp <;> omega

theorem ddaMeasure_le_of_inb (P : DDAInput) (s : DDAState) (hin : ¬ oob P s) :
    ddaMeasure P s ≤ P.world_width.toNat + P.world_height.toNat := by
  unfold oob at hin
  push_neg at hin
  obtain ⟨h1, h2, h3, h4⟩ := hin
  unfold ddaMeasure
  rcases step_x_cases P with hsx | hsx <;> rcases step_y_cases P with hsy | hsy <;>
    rw [hsx, hsy] <;> simp <;> omega

theorem ddaLoop_succ (P : DDAInput) (fuel : ℕ) (s : DDAState) :
    ddaLoop P (fuel + 1) s =
      (if oob P (ddaStep P s) then some (.ok (ddaStep P s) 1)
       else
        match arrGet P.world_array (ddaStep P s).map_y (ddaStep P s).map_x with
        | none => some .badIndex
        | some v =>
            if 0 < v then some (.ok (ddaStep P s) v) else ddaLoop P fuel (ddaStep P s)) :=
  rfl

theorem ddaLoop_total_of_inb (P : DDAInput) :
    ∀ (fuel : ℕ) (s : DDAState), ¬ oob P s → ddaMeasure P s ≤ fuel →
      ∃ o, ddaLoop P fuel s = some o := by
  intro fuel
  induction fuel with
  | zero =>
      intro s hin hm
      exfalso
      unfold oob at hin
      push_neg at hin
      unfold ddaMeasure at hm
      rcases step_x_cases P with hsx | hsx <;> rcases step_y_cases P with hsy | hsy <;>
        rw [hsx, hsy] at hm <;> simp at hm <;> omega
  | succ fuel ih =>
      intro s hin hm
      rw [ddaLoop_succ]
      by_cases hoob : oob P (ddaStep P s)
      · exact ⟨_, by rw [if_pos hoob]⟩
      · rcases harr : arrGet P.world_array (ddaStep P s).map_y (ddaStep P s).map_x with _ | v
        · exact ⟨.badIndex, by rw [if_neg hoob]⟩
        · by_cases hv : 0 < v
          · exact ⟨.ok (ddaStep P s) v, by rw [if_neg hoob]; simp [hv]⟩
          · have hlt := ddaMeasure_step_lt P s hin
            obtain ⟨o, ho⟩ := ih (ddaStep P s) hoob (by omega)
            exact ⟨o, by rw [if_neg hoob]; simp [hv, ho]⟩

theorem ddaLoop_total (P : DDAInput) (fuel : ℕ) (s : DDAState)
    (hf : P.world_width.toNat + P.world_height.toNat + 2 ≤ fuel) :
    ∃ o, ddaLoop P fuel s = some o := by
  by_cases hin : oob P s
  · obtain ⟨fuel', rfl⟩ : ∃ f, fuel = f + 1 := ⟨fuel - 1, by omega⟩
    rw [ddaLoop_succ]
    by_cases hoob : oob P (ddaStep P s)
    · exact ⟨_, by rw [if_pos hoob]⟩
    · rcases harr : arrGet P.world_array (ddaStep P s).map_y (ddaStep P s).map_x with _ | v
      · exact ⟨.badIndex, by rw [if_neg hoob]⟩
      · by_cases hv : 0 < v
        · exact ⟨.ok (ddaStep P s) v, by rw [if_neg hoob]; simp [hv]⟩
        · have hb := ddaMeasure_le_of_inb P (ddaStep P s) hoob
          obtain ⟨o, ho⟩ := ddaLoop_total_of_inb P fuel' (ddaStep P s) hoob (by omega)
          exact ⟨o, by rw [if_neg hoob]; simp [hv, ho]⟩
  · have hb := ddaMeasure_le_of_inb P s hin
    exact ddaLoop_total_of_inb P fuel s hin (by omega)

/-- Claim C10 (implicit): the DDA stepping loop of `fast_dda` terminates for
every starting position, every direction vector — including `dx = 0`,
`dy = 0`, or both zero — and every finite grid: with the fuel `ddaFuel`
(one unit per cell the fixed stepping directions can visit, plus slack) the
loop always returns an outcome instead of running out of fuel. -/
theorem fast_dda_loop_terminates (P : DDAInput) :
    ∃ o, ddaLoop P (ddaFuel P) (initState P) = some o :=
  ddaLoop_total P (ddaFuel P) (initState P) (by unfold ddaFuel; omega)

/-! ## C9: casting never throws, NaN distances cannot arise -/

theorem arrGet_some_of_inb (P : DDAInput) (hwf : gridWF P) (s : DDAState)
    (hin : ¬ oob P s) : ∃ v, arrGet P.world_array s.map_y s.map_x = some v := by
  unfold oob at hin
  push_neg at hin
  obtain ⟨h1, h2, h3, h4⟩ := hin
  unfold arrGet
  rw [if_pos ⟨h3, h1⟩]
  have hrow : s.map_y.toNat < P.world_array.length := by
    rw [hwf.1]; omega
  rw [List.getElem?_eq_getElem hrow]
  have hmem : P.world_array[s.map_y.toNat] ∈ P.world_array := List.getElem_mem hrow
  have hlen : (P.world_array[s.map_y.toNat]).length = P.world_width.toNat :=
    hwf.2 _ hmem
  have hcol : s.map_x.toNat < (P.world_array[s.map_y.toNat]).length := by
    rw [hlen]; omega
  refine ⟨P.world_array[s.map_y.toNat][s.map_x.toNat], ?_⟩
  simp [List.getElem?_eq_getElem hcol]

theorem ddaMono_init (P : DDAInput) : ddaMono P (initState P) := by
  unfold ddaMono initState
  exact ⟨fun _ => le_refl _, fun _ => le_refl _, fun _ => le_refl _, fun _ => le_refl _⟩

theorem ddaMono_step (P : DDAInput) (s : DDAState) (h : ddaMono P s) :
    ddaMono P (ddaStep P s) := by
  obtain ⟨m1, m2, m3, m4⟩ := h
  unfold ddaMono ddaStep
  by_cases hbr : s.side_dist_x < s.side_dist_y
  · simp only [hbr, if_true]
    refine ⟨?_, ?_, ?_, ?_⟩ <;> intro hs
    · have := m1 hs; simp only [hs]; omega
    · have := m2 hs; simp only [hs]; omega
    · exact m3 hs
    · exact m4 hs
  · simp only [hbr, if_false]
    refine ⟨?_, ?_, ?_, ?_⟩ <;> intro hs
    · exact m1 hs
    · exact m2 hs
    · have := m3 hs; simp only [hs]; omega
    · have := m4 hs; simp only [hs]; omega

theorem ddaStep_exit (P : DDAInput) (s : DDAState) (h : ddaMono P s) :
    ((ddaStep P s).side = 0 ∨ (ddaStep P s).side = 1) ∧
    ((ddaStep P s).side = 0 → P.dx = 0 → map_x_init P + 1 ≤ (ddaStep P s).map_x) ∧
    ((ddaStep P s).side = 1 → P.dy = 0 → map_y_init P + 1 ≤ (ddaStep P s).map_y) := by
  obtain ⟨m1, m2, m3, m4⟩ := h
  unfold ddaStep
  by_cases hbr : s.side_dist_x < s.side_dist_y
  · simp only [hbr, if_true]
    refine ⟨Or.inl (by trivial), ?_, ?_⟩
    · intro _ hdx
      have hs := step_x_of_dx_zero P hdx
      have := m1 hs
      simp only [hs]
      omega
    · intro hside
      simp at hside
  · simp only [hbr, if_false]
    refine ⟨Or.inr (by trivial), ?_, ?_⟩
    · intro hside
      simp at hside
    · intro _ hdy
      have hs := step_y_of_dy_zero P hdy
      have := m3 hs
      simp only [hs]
      omega

theorem ddaLoop_wf_exit (P : DDAInput) (hwf : gridWF P) :
    ∀ (fuel : ℕ) (s : DDAState), ¬ oob P s → ddaMeasure P s ≤ fuel → ddaMono P s →
      ∃ t tid, ddaLoop P fuel s = some (.ok t tid) ∧
        (t.side = 0 ∨ t.side = 1) ∧
        (t.side = 0 → P.dx = 0 → map_x_init P + 1 ≤ t.map_x) ∧
        (t.side = 1 → P.dy = 0 → map_y_init P + 1 ≤ t.map_y) := by
  intro fuel
  induction fuel with
  | zero =>
      intro s hin hm _
      exfalso
      unfold oob at hin
      push_neg at hin
      unfold ddaMeasure at hm
      rcases step_x_cases P with hsx | hsx <;> rcases step_y_cases P with hsy | hsy <;>
        rw [hsx, hsy] at hm <;> simp at hm <;> omega
  | succ fuel ih =>
      intro s hin hm hmono
      rw [ddaLoop_succ]
      have hexit := ddaStep_exit P s hmono
      by_cases hoob : oob P (ddaStep P s)
      · exact ⟨ddaStep P s, 1, by rw [if_pos hoob], hexit.1, hexit.2.1, hexit.2.2⟩
      · obtain ⟨v, harr⟩ := arrGet_some_of_inb P hwf (ddaStep P s) hoob
        rw [if_neg hoob, harr]
        by_cases hv : 0 < v
        · exact ⟨ddaStep P s, v, by simp [hv], hexit.1, hexit.2.1, hexit.2.2⟩
        · have hlt := ddaMeasure_step_lt P s hin
          obtain ⟨t, tid, ht, hp⟩ :=
            ih (ddaStep P s) hoob (by omega) (ddaMono_step P s hmono)
          exact ⟨t, tid, by simp [hv, ht], hp⟩

/-- Claim C9: casting never throws — for every well-shaped grid the DDA loop
returns a hit outcome (no out-of-range array access, no fuel exhaustion) —
and the final distance division is never `0/0`: whenever its divisor is
zero its numerator is positive, so a degenerate distance is an IEEE
infinity, never NaN.  Since no ray can yield a NaN distance, the claim's
clamping clause ("any NaN-distance ray is clamped and reported no-hit")
holds vacuously. -/
theorem cast_rays_never_throws (P : DDAInput) (hwf : gridWF P) :
    ∃ s tid, ddaLoop P (ddaFuel P) (initState P) = some (.ok s tid) ∧
      (perpDen P s = 0 → 0 < perpNum P s) := by
  have key : ∃ t tid, ddaLoop P (ddaFuel P) (initState P) = some (.ok t tid) ∧
      (t.side = 0 ∨ t.side = 1) ∧
      (t.side = 0 → P.dx = 0 → map_x_init P + 1 ≤ t.map_x) ∧
      (t.side = 1 → P.dy = 0 → map_y_init P + 1 ≤ t.map_y) := by
    by_cases hin : oob P (initState P)
    · obtain ⟨f, hf⟩ : ∃ f, ddaFuel P = f + 1 := ⟨ddaFuel P - 1, by unfold ddaFuel; omega⟩
      rw [hf, ddaLoop_succ]
      have hexit := ddaStep_exit P (initState P) (ddaMono_init P)
      by_cases hoob : oob P (ddaStep P (initState P))
      · exact ⟨_, 1, by rw [if_pos hoob], hexit.1, hexit.2.1, hexit.2.2⟩
      · obtain ⟨v, harr⟩ := arrGet_some_of_inb P hwf _ hoob
        rw [if_neg hoob, harr]
        by_cases hv : 0 < v
        · exact ⟨_, v, by simp [hv], hexit.1, hexit.2.1, hexit.2.2⟩
        · have hb := ddaMeasure_le_of_inb P _ hoob
          obtain ⟨t, tid, ht, hp⟩ := ddaLoop_wf_exit P hwf f (ddaStep P (initState P))
            hoob (by unfold ddaFuel at hf; omega) (ddaMono_step P _ (ddaMono_init P))
          exact ⟨t, tid, by simp [hv, ht], hp⟩
    · have hb := ddaMeasure_le_of_inb P _ hin
      exact ddaLoop_wf_exit P hwf (ddaFuel P) (initState P) hin
        (by unfold ddaFuel; omega) (ddaMono_init P)
  obtain ⟨t, tid, ht, hside, hqx, hqy⟩ := key
  refine ⟨t, tid, ht, ?_⟩
  intro hden
  unfold perpDen at hden
  unfold perpNum
  by_cases hs0 : t.side = 0
  · rw [if_pos hs0] at hden
    rw [if_pos hs0]
    have hmx := hqx hs0 hden
    have hfr := pyInt_gt_sub_one P.start_x
    have hsx := step_x_of_dx_zero P hden
    have hcast : (map_x_init P : ℚ) + 1 ≤ (t.map_x : ℚ) := by exact_mod_cast hmx
    unfold map_x_init at hcast
    rw [hsx]
    norm_num
    linarith
  · have hs1 : t.side = 1 := (hside.resolve_left hs0)
    rw [if_neg hs0] at hden
    rw [if_neg hs0]
    have hmy := hqy hs1 hden
    have hfr := pyInt_gt_sub_one P.start_y
    have hsy := step_y_of_dy_zero P hden
    have hcast : (map_y_init P : ℚ) + 1 ≤ (t.map_y : ℚ) := by exact_mod_cast hmy
    unfold map_y_init at hcast
    rw [hsy]
    norm_num
    linarith

/-- Witness for C9 on a concrete well-formed 1×1 grid. -/
theorem cast_rays_never_throws_witness :
    gridWF (DDAInput.mk (1/2) (1/2) 1 0 [[0]] 1 1) ∧
    (∃ s tid,
      ddaLoop (DDAInput.mk (1/2) (1/2) 1 0 [[0]] 1 1)
          (ddaFuel (DDAInput.mk (1/2) (1/2) 1 0 [[0]] 1 1))
          (initState (DDAInput.mk (1/2) (1/2) 1 0 [[0]] 1 1)) = some (.ok s tid) ∧
      (perpDen (DDAInput.mk (1/2) (1/2) 1 0 [[0]] 1 1) s = 0 →
        0 < perpNum (DDAInput.mk (1/2) (1/2) 1 0 [[0]] 1 1) s)) := by
  have hwf : gridWF (DDAInput.mk (1/2) (1/2) 1 0 [[0]] 1 1) := by
    constructor
    · rfl
    · intro row hrow
      simp at hrow
      rw [hrow]
      rfl
  exact ⟨hwf, cast_rays_never_throws _ hwf⟩

/-! ## C4: axis-aligned rays and the Mode-7 horizon row -/

theorem delta_dist_x_nonneg (P : DDAInput) : 0 ≤ delta_dist_x P := by
  unfold delta_dist_x
  split
  · norm_num
  · exact abs_nonneg _

theorem delta_dist_y_nonneg (P : DDAInput) : 0 ≤ delta_dist_y P := by
  unfold delta_dist_y
  split
  · norm_num
  · exact abs_nonneg _

theorem initState_inb (P : DDAInput) (hx0 : 0 ≤ P.start_x)
    (hxw : P.start_x < (P.world_width : ℚ)) (hy0 : 0 ≤ P.start_y)
    (hyh : P.start_y < (P.world_height : ℚ)) : ¬ oob P (initState P) := by
  unfold oob initState map_x_init map_y_init
  push_neg
  rw [pyInt_eq_floor hx0, pyInt_eq_floor hy0]
  exact ⟨Int.floor_nonneg.2 hx0, Int.floor_lt.2 hxw, Int.floor_nonneg.2 hy0,
    Int.floor_lt.2 hyh⟩

theorem ddaLoop_exits_side1 (P : DDAInput) (hwf : gridWF P) :
    ∀ (fuel : ℕ) (s : DDAState), ¬ oob P s → ddaMeasure P s ≤ fuel →
      s.side_dist_y + (ddaBudgetY P s : ℚ) * delta_dist_y P ≤ s.side_dist_x →
      ∃ t tid, ddaLoop P fuel s = some (.ok t tid) ∧ t.side = 1 := by
  intro fuel
  induction fuel with
  | zero =>
      intro s hin hm _
      exfalso
      unfold oob at hin
      push_neg at hin
      unfold ddaMeasure at hm
      rcases step_x_cases P with hsx | hsx <;> rcases step_y_cases P with hsy | hsy <;>
        rw [hsx, hsy] at hm <;> simp at hm <;> omega
  | succ fuel ih =>
      intro s hin hm hdom
      have hinb := hin
      unfold oob at hinb
      push_neg at hinb
      obtain ⟨h1, h2, h3, h4⟩ := hinb
      have hbud1 : 1 ≤ ddaBudgetY P s := by
        unfold ddaBudgetY
        rcases step_y_cases P with hsy | hsy <;> rw [hsy] <;> simp <;> omega
      have hdel : 0 ≤ delta_dist_y P := delta_dist_y_nonneg P
      have hble : s.side_dist_y ≤ s.side_dist_x := by
        have hb0 : (0 : ℚ) ≤ (ddaBudgetY P s : ℚ) * delta_dist_y P := by
          have : (0 : ℚ) ≤ (ddaBudgetY P s : ℚ) := by exact_mod_cast le_trans zero_le_one hbud1
          exact mul_nonneg this hdel
        linarith
      have hbr : ¬ (s.side_dist_x < s.side_dist_y) := not_lt.2 hble
      have hstep : ddaStep P s =
          ⟨s.map_x, s.map_y + step_y P, s.side_dist_x,
            s.side_dist_y + delta_dist_y P, 1⟩ := by
        unfold ddaStep
        rw [if_neg hbr]
      rw [ddaLoop_succ, hstep]
      by_cases hoob : oob P (⟨s.map_x, s.map_y + step_y P, s.side_dist_x,
          s.side_dist_y + delta_dist_y P, 1⟩ : DDAState)
      · exact ⟨_, 1, by rw [if_pos hoob], rfl⟩
      · obtain ⟨v, harr⟩ := arrGet_some_of_inb P hwf _ hoob
        rw [if_neg hoob, harr]
        by_cases hv : 0 < v
        · exact ⟨⟨s.map_x, s.map_y + step_y P, s.side_dist_x,
            s.side_dist_y + delta_dist_y P, 1⟩, v, by simp [hv], rfl⟩
        · have hmlt := ddaMeasure_step_lt P s hin
          rw [hstep] at hmlt
          have hbud : ddaBudgetY P (⟨s.map_x, s.map_y + step_y P, s.side_dist_x,
              s.side_dist_y + delta_dist_y P, 1⟩ : DDAState) = ddaBudgetY P s - 1 := by
            unfold ddaBudgetY
            rcases step_y_cases P with hsy | hsy <;> rw [hsy] <;> simp <;> omega
          have hdom2 : (⟨s.map_x, s.map_y + step_y P, s.side_dist_x,
              s.side_dist_y + delta_dist_y P, 1⟩ : DDAState).side_dist_y +
              (ddaBudgetY P (⟨s.map_x, s.map_y + step_y P, s.side_dist_x,
                s.side_dist_y + delta_dist_y P, 1⟩ : DDAState) : ℚ) * delta_dist_y P ≤
              (⟨s.map_x, s.map_y + step_y P, s.side_dist_x,
                s.side_dist_y + delta_dist_y P, 1⟩ : DDAState).side_dist_x := by
            rw [hbud]
            push_cast
            have expand : (s.side_dist_y + delta_dist_y P) +
                ((ddaBudgetY P s : ℚ) - 1) * delta_dist_y P =
                s.side_dist_y + (ddaBudgetY P s : ℚ) * delta_dist_y P := by ring
            calc (⟨s.map_x, s.map_y + step_y P, s.side_dist_x,
                  s.side_dist_y + delta_dist_y P, 1⟩ : DDAState).side_dist_y +
                  ((ddaBudgetY P s : ℚ) - 1) * delta_dist_y P
                = s.side_dist_y + (ddaBudgetY P s : ℚ) * delta_dist_y P := expand
              _ ≤ s.side_dist_x := hdom
          obtain ⟨t, tid, ht, hts⟩ := ih _ hoob (by omega) hdom2
          exact ⟨t, tid, by simp [hv, ht], hts⟩

theorem ddaLoop_exits_side0 (P : DDAInput) (hwf : gridWF P) :
    ∀ (fuel : ℕ) (s : DDAState), ¬ oob P s → ddaMeasure P s ≤ fuel →
      s.side_dist_x + (ddaBudgetX P s : ℚ) * delta_dist_x P < s.side_dist_y →
      ∃ t tid, ddaLoop P fuel s = some (.ok t tid) ∧ t.side = 0 := by
  intro fuel
  induction fuel with
  | zero =>
      intro s hin hm _
      exfalso
      unfold oob at hin
      push_neg at hin
      unfold ddaMeasure at hm
      rcases step_x_cases P with hsx | hsx <;> rcases step_y_cases P with hsy | hsy <;>
        rw [hsx, hsy] at hm <;> simp at hm <;> omega
  | succ fuel ih =>
      intro s hin hm hdom
      have hinb := hin
      unfold oob at hinb
      push_neg at hinb
      obtain ⟨h1, h2, h3, h4⟩ := hinb
      have hbud1 : 1 ≤ ddaBudgetX P s := by
        unfold ddaBudgetX
        rcases step_x_cases P with hsx | hsx <;> rw [hsx] <;> simp <;> omega
      have hdel : 0 ≤ delta_dist_x P := delta_dist_x_nonneg P
      have hbr : s.side_dist_x < s.side_dist_y := by
        have hb0 : (0 : ℚ) ≤ (ddaBudgetX P s : ℚ) * delta_dist_x P := by
          have : (0 : ℚ) ≤ (ddaBudgetX P s : ℚ) := by exact_mod_cast le_trans zero_le_one hbud1
          exact mul_nonneg this hdel
        linarith
      have hstep : ddaStep P s =
          ⟨s.map_x + step_x P, s.map_y, s.side_dist_x + delta_dist_x P,
            s.side_dist_y, 0⟩ := by
        unfold ddaStep
        rw [if_pos hbr]
      rw [ddaLoop_succ, hstep]
      by_cases hoob : oob P (⟨s.map_x + step_x P, s.map_y,
          s.side_dist_x + delta_dist_x P, s.side_dist_y, 0⟩ : DDAState)
      · exact ⟨_, 1, by rw [if_pos hoob], rfl⟩
      · obtain ⟨v, harr⟩ := arrGet_some_of_inb P hwf _ hoob
        rw [if_neg hoob, harr]
        by_cases hv : 0 < v
        · exact ⟨⟨s.map_x + step_x P, s.map_y, s.side_dist_x + delta_dist_x P,
            s.side_dist_y, 0⟩, v, by simp [hv], rfl⟩
        · have hmlt := ddaMeasure_step_lt P s hin
          rw [hstep] at hmlt
          have hbud : ddaBudgetX P (⟨s.map_x + step_x P, s.map_y,
              s.side_dist_x + delta_dist_x P, s.side_dist_y, 0⟩ : DDAState) =
              ddaBudgetX P s - 1 := by
            unfold ddaBudgetX
            rcases step_x_cases P with hsx | hsx <;> rw [hsx] <;> simp <;> omega
          have hdom2 : (⟨s.map_x + step_x P, s.map_y,
              s.side_dist_x + delta_dist_x P, s.side_dist_y, 0⟩ : DDAState).side_dist_x +
              (ddaBudgetX P (⟨s.map_x + step_x P, s.map_y,
                s.side_dist_x + delta_dist_x P, s.side_dist_y, 0⟩ : DDAState) : ℚ) *
                delta_dist_x P <
              (⟨s.map_x + step_x P, s.map_y,
                s.side_dist_x + delta_dist_x P, s.side_dist_y, 0⟩ : DDAState).side_dist_y := by
            rw [hbud]
            push_cast
            have expand : (s.side_dist_x + delta_dist_x P) +
                ((ddaBudgetX P s : ℚ) - 1) * delta_dist_x P =
                s.side_dist_x + (ddaBudgetX P s : ℚ) * delta_dist_x P := by ring
            calc (⟨s.map_x + step_x P, s.map_y, s.side_dist_x + delta_dist_x P,
                  s.side_dist_y, 0⟩ : DDAState).side_dist_x +
                  ((ddaBudgetX P s : ℚ) - 1) * delta_dist_x P
                = s.side_dist_x + (ddaBudgetX P s : ℚ) * delta_dist_x P := expand
              _ < s.side_dist_y := hdom
          obtain ⟨t, tid, ht, hts⟩ := ih _ hoob (by omega) hdom2
          exact ⟨t, tid, by simp [hv, ht], hts⟩

/-- Counterexample to C4: for the camera position of `c4Input` — inside the
grid — and direction `(dx, dy) = (0, 10⁻²⁰)` (so `dirX == 0`), the first
DDA comparison selects the x-axis because the `1e30` sentinel times the
tiny fractional offset `10⁻¹⁶` is smaller than `side_dist_y`; the exit has
`side = 0` and the distance division divides by `dx = 0`, which in the
Numba float semantics yields an IEEE infinity (`none` here): the returned
distance is not finite, so division by zero does occur on this path. -/
theorem fast_dda_zero_dx_nonfinite :
    c4Input.dx = 0 ∧
    fast_dda c4Input =
      some { hit := true, distance := none, texture_id := 1, texture_x := none,
             side := 0, map_x := 1, map_y := 0 } := by
  have hmx : map_x_init c4Input = 0 := by
    unfold map_x_init c4Input
    exact pyInt_eq_of_nonneg _ 0 (by norm_num) (by norm_num) (by norm_num)
  have hmy : map_y_init c4Input = 0 := by
    unfold map_y_init c4Input
    exact pyInt_eq_of_nonneg _ 0 (by norm_num) (by norm_num) (by norm_num)
  have hddx : delta_dist_x c4Input = 10^30 := by
    unfold delta_dist_x c4Input
    norm_num
  have hddy : delta_dist_y c4Input = 10^20 := by
    unfold delta_dist_y c4Input
    rw [if_neg (by norm_num)]
    rw [abs_of_nonneg (by norm_num)]
    norm_num
  have hsdx : side_dist_x_init c4Input = 10^14 := by
    unfold side_dist_x_init
    rw [if_neg (by unfold c4Input; norm_num), hmx, hddx]
    unfold c4Input
    norm_num
  have hsdy : side_dist_y_init c4Input = 5 * 10^19 := by
    unfold side_dist_y_init
    rw [if_neg (by unfold c4Input; norm_num), hmy, hddy]
    unfold c4Input
    norm_num
  have hinit : initState c4Input = ⟨0, 0, 10^14, 5 * 10^19, 0⟩ := by
    unfold initState
    rw [hmx, hmy, hsdx, hsdy]
  have hstep : ddaStep c4Input (⟨0, 0, 10^14, 5 * 10^19, 0⟩ : DDAState) =
      ⟨1, 0, 10^14 + 10^30, 5 * 10^19, 0⟩ := by
    unfold ddaStep
    rw [if_pos (by norm_num)]
    rw [show step_x c4Input = 1 from by unfold step_x c4Input; norm_num, hddx]
    simp
  have hoob : oob c4Input (⟨1, 0, 10^14 + 10^30, 5 * 10^19, 0⟩ : DDAState) := by
    unfold oob c4Input
    norm_num
  have hfuel : ddaFuel c4Input = 5 + 1 := by
    unfold ddaFuel c4Input
    rfl
  have hloop : ddaLoop c4Input (ddaFuel c4Input) (initState c4Input) =
      some (.ok (⟨1, 0, 10^14 + 10^30, 5 * 10^19, 0⟩ : DDAState) 1) := by
    rw [hfuel, hinit, ddaLoop_succ, hstep, if_pos hoob]
  refine ⟨rfl, ?_⟩
  have hpd : perpDist c4Input (⟨1, 0, 10^14 + 10^30, 5 * 10^19, 0⟩ : DDAState) = none := by
    unfold perpDist perpDen c4Input
    norm_num
  unfold fast_dda
  rw [hloop]
  dsimp only
  rw [hpd]

/-- Amended C4: an axis-aligned ray yields a finite, non-NaN distance when
the step comparison can never select the degenerate axis: with `dx = 0`
(resp. `dy = 0`), the other component nonzero, the camera inside the grid,
and the starting `side_dist` of the degenerate axis (its fractional offset
times the `1e30` sentinel) at least the largest `side_dist` the other axis
can reach before leaving the grid.  The `1e30` sentinel guarantees this for
unit-length directions and non-astronomical grids but not for every
position and direction, as the counterexample shows.  And the Mode-7 row
`y = 0` is skipped by the horizon guard (`screen_y == p` with
`horizon_height = screen_height // 2`), so it writes only the
pre-allocated zeros — no NaN/Inf reaches any output pixel of that row. -/
theorem dda_axis_aligned_and_horizon_safe :
    (∀ P : DDAInput, gridWF P → P.dx = 0 → P.dy ≠ 0 →
      0 ≤ P.start_x → P.start_x < (P.world_width : ℚ) →
      0 ≤ P.start_y → P.start_y < (P.world_height : ℚ) →
      side_dist_y_init P + ((P.world_height : ℚ) + 1) * delta_dist_y P ≤
        side_dist_x_init P →
      ∃ r q, fast_dda P = some r ∧ r.distance = some q) ∧
    (∀ P : DDAInput, gridWF P → P.dy = 0 → P.dx ≠ 0 →
      0 ≤ P.start_x → P.start_x < (P.world_width : ℚ) →
      0 ≤ P.start_y → P.start_y < (P.world_height : ℚ) →
      side_dist_x_init P + ((P.world_width : ℚ) + 1) * delta_dist_x P <
        side_dist_y_init P →
      ∃ r q, fast_dda P = some r ∧ r.distance = some q) ∧
    (∀ (width : ℤ) (px py ca sa : ℚ) (tex : ℤ → ℤ → ℕ × ℕ × ℕ)
        (sh tw th : ℤ) (mrd : ℚ) (xp : ℤ),
      mode7Pixel width px py ca sa tex (sh / 2) sh tw th mrd 0 xp = (0, 0, 0)) := by
  refine ⟨?_, ?_, ?_⟩
  · intro P hwf hdx hdy hx0 hxw hy0 hyh hdom
    have hin := initState_inb P hx0 hxw hy0 hyh
    have hb := ddaMeasure_le_of_inb P _ hin
    have hbud : ddaBudgetY P (initState P) ≤ P.world_height + 1 := by
      unfold ddaBudgetY initState map_y_init
      have hf0 : 0 ≤ ⌊P.start_y⌋ := Int.floor_nonneg.2 hy0
      have hfh : ⌊P.start_y⌋ < P.world_height := Int.floor_lt.2 hyh
      rw [pyInt_eq_floor hy0]
      rcases step_y_cases P with hsy | hsy <;> rw [hsy] <;> simp <;> omega
    have hdel := delta_dist_y_nonneg P
    have hdom0 : (initState P).side_dist_y +
        (ddaBudgetY P (initState P) : ℚ) * delta_dist_y P ≤
        (initState P).side_dist_x := by
      have hcast : (ddaBudgetY P (initState P) : ℚ) ≤ (P.world_height : ℚ) + 1 := by
        exact_mod_cast hbud
      have hmul : (ddaBudgetY P (initState P) : ℚ) * delta_dist_y P ≤
          ((P.world_height : ℚ) + 1) * delta_dist_y P :=
        mul_le_mul_of_nonneg_right hcast hdel
      show side_dist_y_init P + _ ≤ side_dist_x_init P
      linarith
    obtain ⟨t, tid, hloop, hside⟩ := ddaLoop_exits_side1 P hwf (ddaFuel P)
      (initState P) hin (by unfold ddaFuel; omega) hdom0
    have hden : perpDen P t = P.dy := by
      unfold perpDen
      rw [if_neg (by rw [hside]; exact one_ne_zero)]
    have hpd : perpDist P t = some (perpNum P t / P.dy) := by
      unfold perpDist
      rw [hden, if_neg hdy]
    refine ⟨{ hit := true, distance := some (perpNum P t / P.dy), texture_id := tid,
              texture_x := some (textureX (wallXRaw P t.side (perpNum P t / P.dy))),
              side := t.side, map_x := t.map_x, map_y := t.map_y },
            perpNum P t / P.dy, ?_, rfl⟩
    unfold fast_dda
    rw [hloop]
    dsimp only
    rw [hpd]
  · intro P hwf hdy hdx hx0 hxw hy0 hyh hdom
    have hin := initState_inb P hx0 hxw hy0 hyh
    have hb := ddaMeasure_le_of_inb P _ hin
    have hbud : ddaBudgetX P (initState P) ≤ P.world_width + 1 := by
      unfold ddaBudgetX initState map_x_init
      have hf0 : 0 ≤ ⌊P.start_x⌋ := Int.floor_nonneg.2 hx0
      have hfh : ⌊P.start_x⌋ < P.world_width := Int.floor_lt.2 hxw
      rw [pyInt_eq_floor hx0]
      rcases step_x_cases P with hsx | hsx <;> rw [hsx] <;> simp <;> omega
    have hdel := delta_dist_x_nonneg P
    have hdom0 : (initState P).side_dist_x +
        (ddaBudgetX P (initState P) : ℚ) * delta_dist_x P <
        (initState P).side_dist_y := by
      have hcast : (ddaBudgetX P (initState P) : ℚ) ≤ (P.world_width : ℚ) + 1 := by
        exact_mod_cast hbud
      have hmul : (ddaBudgetX P (initState P) : ℚ) * delta_dist_x P ≤
          ((P.world_width : ℚ) + 1) * delta_dist_x P :=
        mul_le_mul_of_nonneg_right hcast hdel
      show side_dist_x_init P + _ < side_dist_y_init P
      linarith
    obtain ⟨t, tid, hloop, hside⟩ := ddaLoop_exits_side0 P hwf (ddaFuel P)
      (initState P) hin (by unfold ddaFuel; omega) hdom0
    have hden : perpDen P t = P.dx := by
      unfold perpDen
      rw [if_pos hside]
    have hpd : perpDist P t = some (perpNum P t / P.dx) := by
      unfold perpDist
      rw [hden, if_neg hdx]
    refine ⟨{ hit := true, distance := some (perpNum P t / P.dx), texture_id := tid,
              texture_x := some (textureX (wallXRaw P t.side (perpNum P t / P.dx))),
              side := t.side, map_x := t.map_x, map_y := t.map_y },
            perpNum P t / P.dx, ?_, rfl⟩
    unfold fast_dda
    rw [hloop]
    dsimp only
    rw [hpd]
  · intro width px py ca sa tex sh tw th mrd xp
    unfold mode7Pixel
    rw [if_pos (Or.inr (add_zero _))]

/-- Witness for the amended C4: a ray straight up (`dx = 0`, `dy = 1`) and a
ray straight right (`dx = 1`, `dy = 0`) from the centre of cell (0,0) of an
empty 3×3 grid, and a concrete Mode-7 horizon row. -/
theorem dda_axis_aligned_and_horizon_safe_witness :
    (∃ r q, fast_dda (DDAInput.mk (1/2) (1/2) 0 1
        [[0, 0, 0], [0, 0, 0], [0, 0, 0]] 3 3) = some r ∧ r.distance = some q) ∧
    (∃ r q, fast_dda (DDAInput.mk (1/2) (1/2) 1 0
        [[0, 0, 0], [0, 0, 0], [0, 0, 0]] 3 3) = some r ∧ r.distance = some q) ∧
    mode7Pixel 10 0 0 1 0 (fun _ _ => (0, 0, 0)) ((720 : ℤ) / 2) 720 64 64 20 0 3 =
      (0, 0, 0) := by
  refine ⟨?_, ?_, ?_⟩
  · apply dda_axis_aligned_and_horizon_safe.1
    · decide
    · rfl
    · norm_num
    · norm_num
    · norm_num
    · norm_num
    · norm_num
    · norm_num [side_dist_y_init, side_dist_x_init, delta_dist_y, delta_dist_x,
        map_x_init, map_y_init, pyInt, step_x, step_y]
  · apply dda_axis_aligned_and_horizon_safe.2.1
    · decide
    · rfl
    · norm_num
    · norm_num
    · norm_num
    · norm_num
    · norm_num
    · norm_num [side_dist_y_init, side_dist_x_init, delta_dist_y, delta_dist_x,
        map_x_init, map_y_init, pyInt, step_x, step_y]
  · exact dda_axis_aligned_and_horizon_safe.2.2 10 0 0 1 0 (fun _ _ => (0, 0, 0))
      720 64 64 20 3

/-! ## C6: the texture-U coordinate -/

theorem delta_dist_x_eq (P : DDAInput) (hdx : P.dx ≠ 0) :
    delta_dist_x P = ((step_x P : ℤ) : ℚ) / P.dx := by
  unfold delta_dist_x step_x
  rcases lt_trichotomy P.dx 0 with h | h | h
  · rw [if_neg hdx, if_pos h, abs_of_neg (one_div_neg.2 h)]
    push_cast
    ring
  · exact absurd h hdx
  · rw [if_neg hdx, if_neg (not_lt.2 h.le), abs_of_pos (one_div_pos.2 h)]
    push_cast
    ring

theorem delta_dist_y_eq (P : DDAInput) (hdy : P.dy ≠ 0) :
    delta_dist_y P = ((step_y P : ℤ) : ℚ) / P.dy := by
  unfold delta_dist_y step_y
  rcases lt_trichotomy P.dy 0 with h | h | h
  · rw [if_neg hdy, if_pos h, abs_of_neg (one_div_neg.2 h)]
    push_cast
    ring
  · exact absurd h hdy
  · rw [if_neg hdy, if_neg (not_lt.2 h.le), abs_of_pos (one_div_pos.2 h)]
    push_cast
    ring

theorem ddaCoordInv_init (P : DDAInput) (hdx : P.dx ≠ 0) (hdy : P.dy ≠ 0)
    (hx0 : 0 ≤ P.start_x) (hy0 : 0 ≤ P.start_y) : ddaCoordInv P (initState P) := by
  have hfx := pyInt_eq_floor hx0
  have hfy := pyInt_eq_floor hy0
  have hxlo : ((map_x_init P : ℤ) : ℚ) ≤ P.start_x := by
    unfold map_x_init
    rw [hfx]
    exact Int.floor_le _
  have hxhi : P.start_x < ((map_x_init P : ℤ) : ℚ) + 1 := by
    unfold map_x_init
    rw [hfx]
    exact Int.lt_floor_add_one _
  have hylo : ((map_y_init P : ℤ) : ℚ) ≤ P.start_y := by
    unfold map_y_init
    rw [hfy]
    exact Int.floor_le _
  have hyhi : P.start_y < ((map_y_init P : ℤ) : ℚ) + 1 := by
    unfold map_y_init
    rw [hfy]
    exact Int.lt_floor_add_one _
  have hdelx := delta_dist_x_nonneg P
  have hdely := delta_dist_y_nonneg P
  have hEx : side_dist_x_init P =
      ((map_x_init P : ℚ) + ((1 + step_x P : ℤ) : ℚ) / 2 - P.start_x) / P.dx := by
    unfold side_dist_x_init
    rw [delta_dist_x_eq P hdx]
    unfold step_x
    by_cases h : P.dx < 0
    · rw [if_pos h, if_pos h]
      push_cast
      field_simp
    · rw [if_neg h, if_neg h]
      push_cast
      field_simp
  have hEy : side_dist_y_init P =
      ((map_y_init P : ℚ) + ((1 + step_y P : ℤ) : ℚ) / 2 - P.start_y) / P.dy := by
    unfold side_dist_y_init
    rw [delta_dist_y_eq P hdy]
    unfold step_y
    by_cases h : P.dy < 0
    · rw [if_pos h, if_pos h]
      push_cast
      field_simp
    · rw [if_neg h, if_neg h]
      push_cast
      field_simp
  have hsdx0 : 0 ≤ side_dist_x_init P := by
    unfold side_dist_x_init
    by_cases h : P.dx < 0
    · rw [if_pos h]
      exact mul_nonneg (by linarith) hdelx
    · rw [if_neg h]
      exact mul_nonneg (by linarith) hdelx
  have hsdy0 : 0 ≤ side_dist_y_init P := by
    unfold side_dist_y_init
    by_cases h : P.dy < 0
    · rw [if_pos h]
      exact mul_nonneg (by linarith) hdely
    · rw [if_neg h]
      exact mul_nonneg (by linarith) hdely
  have hsdxle : side_dist_x_init P ≤ delta_dist_x P := by
    unfold side_dist_x_init
    by_cases h : P.dx < 0
    · rw [if_pos h]
      calc (P.start_x - (map_x_init P : ℚ)) * delta_dist_x P
          ≤ 1 * delta_dist_x P :=
            mul_le_mul_of_nonneg_right (by linarith) hdelx
        _ = delta_dist_x P := one_mul _
    · rw [if_neg h]
      calc ((map_x_init P : ℚ) + 1 - P.start_x) * delta_dist_x P
          ≤ 1 * delta_dist_x P :=
            mul_le_mul_of_nonneg_right (by linarith) hdelx
        _ = delta_dist_x P := one_mul _
  have hsdyle : side_dist_y_init P ≤ delta_dist_y P := by
    unfold side_dist_y_init
    by_cases h : P.dy < 0
    · rw [if_pos h]
      calc (P.start_y - (map_y_init P : ℚ)) * delta_dist_y P
          ≤ 1 * delta_dist_y P :=
            mul_le_mul_of_nonneg_right (by linarith) hdely
        _ = delta_dist_y P := one_mul _
    · rw [if_neg h]
      calc ((map_y_init P : ℚ) + 1 - P.start_y) * delta_dist_y P
          ≤ 1 * delta_dist_y P :=
            mul_le_mul_of_nonneg_right (by linarith) hdely
        _ = delta_dist_y P := one_mul _
  refine ⟨hEx, hEy, ?_, ?_⟩
  · show side_dist_y_init P - delta_dist_y P ≤ side_dist_x_init P
    linarith
  · show side_dist_x_init P - delta_dist_x P ≤ side_dist_y_init P
    linarith

theorem ddaStep_coord_inv (P : DDAInput) (hdx : P.dx ≠ 0) (hdy : P.dy ≠ 0)
    (s : DDAState) (hinv : ddaCoordInv P s) : ddaCoordInv P (ddaStep P s) := by
  obtain ⟨hEx, hEy, hIxy, hIyx⟩ := hinv
  have hdelx := delta_dist_x_nonneg P
  have hdely := delta_dist_y_nonneg P
  unfold ddaCoordInv ddaStep
  by_cases hbr : s.side_dist_x < s.side_dist_y
  · rw [if_pos hbr]
    refine ⟨?_, hEy, by dsimp only; linarith, by dsimp only; linarith⟩
    dsimp only
    rw [hEx, delta_dist_x_eq P hdx]
    push_cast
    field_simp
    ring
  · rw [if_neg hbr]
    refine ⟨hEx, ?_, by dsimp only; linarith, by dsimp only; linarith⟩
    dsimp only
    rw [hEy, delta_dist_y_eq P hdy]
    push_cast
    field_simp
    ring

theorem ddaStep_side (P : DDAInput) (s : DDAState) :
    (ddaStep P s).side = 0 ∨ (ddaStep P s).side = 1 := by
  unfold ddaStep
  split
  · exact Or.inl rfl
  · exact Or.inr rfl

theorem ddaStep_coord_exit (P : DDAInput) (hdx : P.dx ≠ 0) (hdy : P.dy ≠ 0)
    (s : DDAState) (hin : ¬ oob P s) (hinv : ddaCoordInv P s) :
    0 ≤ wallXRaw P (ddaStep P s).side
        (perpNum P (ddaStep P s) / perpDen P (ddaStep P s)) := by
  obtain ⟨hEx, hEy, hIxy, hIyx⟩ := hinv
  unfold oob at hin
  push_neg at hin
  obtain ⟨h1, h2, h3, h4⟩ := hin
  have hmy0 : (0 : ℚ) ≤ (s.map_y : ℚ) := by exact_mod_cast h3
  have hmx0 : (0 : ℚ) ≤ (s.map_x : ℚ) := by exact_mod_cast h1
  by_cases hbr : s.side_dist_x < s.side_dist_y
  · have hstep : ddaStep P s = ⟨s.map_x + step_x P, s.map_y,
        s.side_dist_x + delta_dist_x P, s.side_dist_y, 0⟩ := by
      unfold ddaStep
      rw [if_pos hbr]
    rw [hstep]
    have hd : perpNum P (⟨s.map_x + step_x P, s.map_y,
        s.side_dist_x + delta_dist_x P, s.side_dist_y, 0⟩ : DDAState) /
        perpDen P (⟨s.map_x + step_x P, s.map_y,
          s.side_dist_x + delta_dist_x P, s.side_dist_y, 0⟩ : DDAState) =
        s.side_dist_x := by
      unfold perpNum perpDen
      dsimp only
      rw [if_pos rfl, if_pos rfl, hEx]
      push_cast
      field_simp
      ring
    rw [hd]
    unfold wallXRaw
    dsimp only
    rw [if_pos rfl]
    rcases lt_or_gt_of_ne hdy with hneg | hpos
    · have hsy : step_y P = -1 := by
        unfold step_y
        rw [if_pos hneg]
      rw [hsy] at hEy
      have hc : s.side_dist_y * P.dy = (s.map_y : ℚ) - P.start_y := by
        rw [hEy]
        push_cast
        field_simp
      have hlt : s.side_dist_y * P.dy < s.side_dist_x * P.dy :=
        mul_lt_mul_of_neg_right hbr hneg
      linarith
    · have hsy : step_y P = 1 := by
        unfold step_y
        rw [if_neg (not_lt.2 (le_of_lt hpos))]
      rw [hsy] at hEy
      have hdel : delta_dist_y P = 1 / P.dy := by
        unfold delta_dist_y
        rw [if_neg hdy, abs_of_pos (one_div_pos.2 hpos)]
      have hc : (s.side_dist_y - delta_dist_y P) * P.dy = (s.map_y : ℚ) - P.start_y := by
        rw [hEy, hdel]
        push_cast
        field_simp
        ring
      have hle : (s.side_dist_y - delta_dist_y P) * P.dy ≤ s.side_dist_x * P.dy :=
        mul_le_mul_of_nonneg_right hIxy (le_of_lt hpos)
      linarith
  · have hstep : ddaStep P s = ⟨s.map_x, s.map_y + step_y P,
        s.side_dist_x, s.side_dist_y + delta_dist_y P, 1⟩ := by
      unfold ddaStep
      rw [if_neg hbr]
    rw [hstep]
    have hd : perpNum P (⟨s.map_x, s.map_y + step_y P,
        s.side_dist_x, s.side_dist_y + delta_dist_y P, 1⟩ : DDAState) /
        perpDen P (⟨s.map_x, s.map_y + step_y P,
          s.side_dist_x, s.side_dist_y + delta_dist_y P, 1⟩ : DDAState) =
        s.side_dist_y := by
      unfold perpNum perpDen
      dsimp only
      rw [if_neg one_ne_zero, if_neg one_ne_zero, hEy]
      push_cast
      field_simp
      ring
    rw [hd]
    unfold wallXRaw
    dsimp only
    rw [if_neg one_ne_zero]
    have hyx : s.side_dist_y ≤ s.side_dist_x := not_lt.1 hbr
    rcases lt_or_gt_of_ne hdx with hneg | hpos
    · have hsx : step_x P = -1 := by
        unfold step_x
        rw [if_pos hneg]
      rw [hsx] at hEx
      have hc : s.side_dist_x * P.dx = (s.map_x : ℚ) - P.start_x := by
        rw [hEx]
        push_cast
        field_simp
      have hlt : s.side_dist_x * P.dx ≤ s.side_dist_y * P.dx :=
        mul_le_mul_of_nonpos_right hyx (le_of_lt hneg)
      linarith
    · have hsx : step_x P = 1 := by
        unfold step_x
        rw [if_neg (not_lt.2 (le_of_lt hpos))]
      rw [hsx] at hEx
      have hdel : delta_dist_x P = 1 / P.dx := by
        unfold delta_dist_x
        rw [if_neg hdx, abs_of_pos (one_div_pos.2 hpos)]
      have hc : (s.side_dist_x - delta_dist_x P) * P.dx = (s.map_x : ℚ) - P.start_x := by
        rw [hEx, hdel]
        push_cast
        field_simp
        ring
      have hle : (s.side_dist_x - delta_dist_x P) * P.dx ≤ s.side_dist_y * P.dx :=
        mul_le_mul_of_nonneg_right hIyx (le_of_lt hpos)
      linarith

theorem ddaLoop_exit_coord (P : DDAInput) (hwf : gridWF P) (hdx : P.dx ≠ 0)
    (hdy : P.dy ≠ 0) :
    ∀ (fuel : ℕ) (s : DDAState), ¬ oob P s → ddaMeasure P s ≤ fuel →
      ddaCoordInv P s →
      ∃ t tid, ddaLoop P fuel s = some (.ok t tid) ∧
        (t.side = 0 ∨ t.side = 1) ∧
        0 ≤ wallXRaw P t.side (perpNum P t / perpDen P t) := by
  intro fuel
  induction fuel with
  | zero =>
      intro s hin hm _
      exfalso
      unfold oob at hin
      push_neg at hin
      unfold ddaMeasure at hm
      rcases step_x_cases P with hsx | hsx <;> rcases step_y_cases P with hsy | hsy <;>
        rw [hsx, hsy] at hm <;> simp at hm <;> omega
  | succ fuel ih =>
      intro s hin hm hinv
      rw [ddaLoop_succ]
      have hcoord := ddaStep_coord_exit P hdx hdy s hin hinv
      have hside := ddaStep_side P s
      by_cases hoob : oob P (ddaStep P s)
      · exact ⟨ddaStep P s, 1, by rw [if_pos hoob], hside, hcoord⟩
      · obtain ⟨v, harr⟩ := arrGet_some_of_inb P hwf (ddaStep P s) hoob
        rw [if_neg hoob, harr]
        by_cases hv : 0 < v
        · exact ⟨ddaStep P s, v, by simp [hv], hside, hcoord⟩
        · have hlt := ddaMeasure_step_lt P s hin
          obtain ⟨t, tid, ht, hp⟩ :=
            ih (ddaStep P s) hoob (by omega) (ddaStep_coord_inv P hdx hdy s hinv)
          exact ⟨t, tid, by simp [hv, ht], hp⟩

/-- Amended C6: for every ray cast from a start position inside the grid
(`0 ≤ start < width/height` on each axis) with both direction components
nonzero, `fast_dda` returns a finite distance and a texture-U coordinate in
`[0, 1)` equal to the exact hit coordinate on the perpendicular axis minus
the floor of that coordinate.  (For a start position outside the grid the
hit coordinate can be negative and `int()` truncation breaks both parts, as
the counterexample shows; a zero direction component can additionally make
the exit division non-finite, as in the C4 counterexample.) -/
theorem fast_dda_textureU (P : DDAInput) (hwf : gridWF P)
    (hx0 : 0 ≤ P.start_x) (hxw : P.start_x < (P.world_width : ℚ))
    (hy0 : 0 ≤ P.start_y) (hyh : P.start_y < (P.world_height : ℚ))
    (hdx : P.dx ≠ 0) (hdy : P.dy ≠ 0) :
    ∃ r d, fast_dda P = some r ∧ r.distance = some d ∧
      r.texture_x = some (textureX (wallXRaw P r.side d)) ∧
      0 ≤ textureX (wallXRaw P r.side d) ∧ textureX (wallXRaw P r.side d) < 1 ∧
      textureX (wallXRaw P r.side d) =
        wallXRaw P r.side d - ⌊wallXRaw P r.side d⌋ := by
  have hin := initState_inb P hx0 hxw hy0 hyh
  have hb := ddaMeasure_le_of_inb P _ hin
  obtain ⟨t, tid, hloop, hside, hcoord⟩ := ddaLoop_exit_coord P hwf hdx hdy
    (ddaFuel P) (initState P) hin (by unfold ddaFuel; omega)
    (ddaCoordInv_init P hdx hdy hx0 hy0)
  have hden : perpDen P t ≠ 0 := by
    unfold perpDen
    rcases hside with h | h
    · rw [if_pos h]
      exact hdx
    · rw [if_neg (by rw [h]; exact one_ne_zero)]
      exact hdy
  have hpd : perpDist P t = some (perpNum P t / perpDen P t) := by
    unfold perpDist
    rw [if_neg hden]
  set d := perpNum P t / perpDen P t with hdd
  set c := wallXRaw P t.side d with hcc
  have hfloor : pyInt c = ⌊c⌋ := pyInt_eq_floor hcoord
  refine ⟨{ hit := true, distance := some d, texture_id := tid,
            texture_x := some (textureX (wallXRaw P t.side d)),
            side := t.side, map_x := t.map_x, map_y := t.map_y }, d, ?_, rfl, rfl,
          ?_, ?_, ?_⟩
  · unfold fast_dda
    rw [hloop]
    dsimp only
    rw [hpd]
  · show 0 ≤ textureX c
    unfold textureX
    rw [hfloor]
    have := Int.floor_le c
    linarith
  · show textureX c < 1
    unfold textureX
    rw [hfloor]
    have := Int.lt_floor_add_one c
    linarith
  · show textureX c = c - ⌊c⌋
    unfold textureX
    rw [hfloor]

/-- Witness for the amended C6: the diagonal ray `(1, 1)` from the centre of
cell (0,0) of an empty 3×3 grid. -/
theorem fast_dda_textureU_witness :
    (gridWF (DDAInput.mk (1/2) (1/2) 1 1 [[0, 0, 0], [0, 0, 0], [0, 0, 0]] 3 3) ∧
      (1 : ℚ) ≠ 0) ∧
    (∃ r d, fast_dda (DDAInput.mk (1/2) (1/2) 1 1
        [[0, 0, 0], [0, 0, 0], [0, 0, 0]] 3 3) = some r ∧
      r.distance = some d ∧
      r.texture_x = some (textureX (wallXRaw (DDAInput.mk (1/2) (1/2) 1 1
        [[0, 0, 0], [0, 0, 0], [0, 0, 0]] 3 3) r.side d)) ∧
      0 ≤ textureX (wallXRaw (DDAInput.mk (1/2) (1/2) 1 1
        [[0, 0, 0], [0, 0, 0], [0, 0, 0]] 3 3) r.side d) ∧
      textureX (wallXRaw (DDAInput.mk (1/2) (1/2) 1 1
        [[0, 0, 0], [0, 0, 0], [0, 0, 0]] 3 3) r.side d) < 1 ∧
      textureX (wallXRaw (DDAInput.mk (1/2) (1/2) 1 1
        [[0, 0, 0], [0, 0, 0], [0, 0, 0]] 3 3) r.side d) =
        wallXRaw (DDAInput.mk (1/2) (1/2) 1 1
          [[0, 0, 0], [0, 0, 0], [0, 0, 0]] 3 3) r.side d -
        ⌊wallXRaw (DDAInput.mk (1/2) (1/2) 1 1
          [[0, 0, 0], [0, 0, 0], [0, 0, 0]] 3 3) r.side d⌋) := by
  refine ⟨⟨by decide, by norm_num⟩, ?_⟩
  exact fast_dda_textureU _ (by decide) (by norm_num) (by norm_num) (by norm_num)
    (by norm_num) (by norm_num) (by norm_num)

/-- Counterexample to C6: the ray of `c6Input` is cast from a start position
below the grid; it leaves the grid through the left edge with exact hit
coordinate `-101/20` on the y-axis, and the code's
`wall_x -= int(wall_x)` yields `texture_x = -1/20`, which is not in
`[0, 1)` and differs from `coord - floor(coord) = 19/20`. -/
theorem fast_dda_textureU_counterexample :
    (∃ r, fast_dda c6Input = some r ∧ r.texture_x = some (-1/20)) ∧
    ¬ (0 : ℚ) ≤ -1/20 ∧
    wallXRaw c6Input 0 (1/2) = -101/20 ∧
    (-1/20 : ℚ) ≠ (-101/20 : ℚ) - ⌊(-101/20 : ℚ)⌋ := by
  have hmx : map_x_init c6Input = 0 := by
    unfold map_x_init c6Input
    exact pyInt_eq_of_nonneg _ 0 (by norm_num) (by norm_num) (by norm_num)
  have hmy : map_y_init c6Input = -5 := by
    unfold map_y_init c6Input
    exact pyInt_eq_of_neg _ (-5) (by norm_num) (by norm_num) (by norm_num)
  have hddx : delta_dist_x c6Input = 1 := by
    unfold delta_dist_x c6Input
    rw [if_neg (by norm_num)]
    norm_num
  have hddy : delta_dist_y c6Input = 10/9 := by
    unfold delta_dist_y c6Input
    rw [if_neg (by norm_num)]
    rw [abs_of_nonneg (by norm_num)]
    norm_num
  have hsx : step_x c6Input = -1 := by
    unfold step_x c6Input
    norm_num
  have hsdx : side_dist_x_init c6Input = 1/2 := by
    unfold side_dist_x_init
    rw [if_pos (by unfold c6Input; norm_num), hmx, hddx]
    unfold c6Input
    norm_num
  have hsdy : side_dist_y_init c6Input = 5/3 := by
    unfold side_dist_y_init
    rw [if_neg (by unfold c6Input; norm_num), hmy, hddy]
    unfold c6Input
    norm_num
  have hinit : initState c6Input = ⟨0, -5, 1/2, 5/3, 0⟩ := by
    unfold initState
    rw [hmx, hmy, hsdx, hsdy]
  have hstep : ddaStep c6Input (⟨0, -5, 1/2, 5/3, 0⟩ : DDAState) =
      ⟨-1, -5, 3/2, 5/3, 0⟩ := by
    unfold ddaStep
    rw [if_pos (by norm_num), hsx, hddx]
    norm_num [DDAState.mk.injEq]
  have hoob : oob c6Input (⟨-1, -5, 3/2, 5/3, 0⟩ : DDAState) := by
    unfold oob
    dsimp only
    left
    norm_num
  have hfuel : ddaFuel c6Input = 9 + 1 := by
    unfold ddaFuel c6Input
    rfl
  have hloop : ddaLoop c6Input (ddaFuel c6Input) (initState c6Input) =
      some (.ok (⟨-1, -5, 3/2, 5/3, 0⟩ : DDAState) 1) := by
    rw [hfuel, hinit, ddaLoop_succ, hstep, if_pos hoob]
  have hden : perpDen c6Input (⟨-1, -5, 3/2, 5/3, 0⟩ : DDAState) = -1 := by
    norm_num [perpDen, c6Input]
  have hnum : perpNum c6Input (⟨-1, -5, 3/2, 5/3, 0⟩ : DDAState) = -1/2 := by
    unfold perpNum
    dsimp only
    rw [if_pos rfl, hsx]
    unfold c6Input
    norm_num
  have hpd : perpDist c6Input (⟨-1, -5, 3/2, 5/3, 0⟩ : DDAState) = some (1/2) := by
    unfold perpDist
    rw [hden, hnum, if_neg (by norm_num)]
    norm_num
  have hw : wallXRaw c6Input 0 (1/2) = -101/20 := by
    unfold wallXRaw c6Input
    norm_num
  have htex : textureX (wallXRaw c6Input 0 (1/2)) = -1/20 := by
    rw [hw]
    unfold textureX
    rw [pyInt_eq_of_neg _ (-5) (by norm_num) (by norm_num) (by norm_num)]
    norm_num
  refine ⟨⟨⟨true, some (1/2), 1, some (-1/20), 0, -1, -5⟩, ?_, rfl⟩,
    by norm_num, hw, by norm_num⟩
  unfold fast_dda
  rw [hloop]
  dsimp only
  rw [hpd]
  dsimp only
  rw [htex]

/-! ## C2: sprite occlusion against the depth buffer -/

theorem slice_any_iff (z : List Depth) (p : Depth → Bool) (a b : ℤ)
    (ha : 0 ≤ a) (hb : b ≤ (z.length : ℤ)) :
    ((z.drop a.toNat).take (b - a).toNat).any p = true ↔
      ∃ c : ℕ, a ≤ (c : ℤ) ∧ (c : ℤ) < b ∧ p (z.getD c Depth.inf) = true := by
  rw [List.any_eq_true]
  constructor
  · rintro ⟨w, hw, hpw⟩
    rw [List.mem_iff_getElem?] at hw
    obtain ⟨i, hi⟩ := hw
    rw [List.getElem?_take] at hi
    by_cases hib : i < (b - a).toNat
    · rw [if_pos hib, List.getElem?_drop] at hi
      refine ⟨a.toNat + i, by omega, by omega, ?_⟩
      rw [List.getD_eq_getElem?_getD, hi, Option.getD_some]
      exact hpw
    · rw [if_neg hib] at hi
      exact absurd hi (by simp)
  · rintro ⟨c, hc1, hc2, hp⟩
    have hcz : c < z.length := by omega
    refine ⟨z.getD c Depth.inf, ?_, hp⟩
    rw [List.mem_iff_getElem?]
    refine ⟨c - a.toNat, ?_⟩
    rw [List.getElem?_take, if_pos (by omega), List.getElem?_drop]
    rw [show a.toNat + (c - a.toNat) = c from by omega]
    rw [List.getD_eq_getElem?_getD, List.getElem?_eq_getElem hcz, Option.getD_some]

/-- Claim C2: a sprite that passed the near-plane and render-distance gates is
blitted if and only if some screen column in its clamped horizontal extent
`[max 0 rect.left, min SCREEN_WIDTH rect.right)` has depth-buffer entry
greater than the sprite's camera-space forward depth `camY`.  In particular
a sprite deeper than the wall at every column of its extent is not blitted,
and one strictly in front of the wall at some column is. -/
theorem render_sprite_occlusion (z : List Depth) (s : Sprite)
    (cos_a sin_a player_x player_y tanHalfFov distance : ℚ)
    (hlen : (z.length : ℤ) = SCREEN_WIDTH)
    (hdist : distance ≤ MAX_RENDER_DISTANCE)
    (hnear : 1/10 < spriteCamY cos_a sin_a player_x player_y s) :
    render_sprite_blits z cos_a sin_a player_x player_y tanHalfFov distance s = true ↔
      ∃ c : ℕ,
        max 0 (spriteRectLeft cos_a sin_a player_x player_y tanHalfFov s) ≤ (c : ℤ) ∧
        (c : ℤ) < min SCREEN_WIDTH
          (spriteRectRight cos_a sin_a player_x player_y tanHalfFov s) ∧
        depthLT (spriteCamY cos_a sin_a player_x player_y s)
          (z.getD c Depth.inf) = true := by
  have hsz0 : 0 ≤ spriteScreenSize cos_a sin_a player_x player_y s := by
    unfold spriteScreenSize
    have hpos : 0 ≤ (SCREEN_HEIGHT : ℚ) / spriteCamY cos_a sin_a player_x player_y s := by
      apply div_nonneg
      · norm_num [SCREEN_HEIGHT]
      · linarith
    rw [pyInt_eq_floor hpos]
    exact Int.floor_nonneg.2 hpos
  have hRL : spriteRectRight cos_a sin_a player_x player_y tanHalfFov s =
      spriteScreenX cos_a sin_a player_x player_y tanHalfFov s -
        spriteScreenSize cos_a sin_a player_x player_y s / 2 +
        spriteScreenSize cos_a sin_a player_x player_y s := rfl
  have hLX : spriteRectLeft cos_a sin_a player_x player_y tanHalfFov s =
      spriteScreenX cos_a sin_a player_x player_y tanHalfFov s -
        spriteScreenSize cos_a sin_a player_x player_y s / 2 := rfl
  unfold render_sprite_blits
  rw [if_neg (not_lt.2 hdist), if_neg (not_le.2 hnear)]
  by_cases hskip : spriteScreenX cos_a sin_a player_x player_y tanHalfFov s <
      -spriteScreenSize cos_a sin_a player_x player_y s ∨
      SCREEN_WIDTH + spriteScreenSize cos_a sin_a player_x player_y s <
        spriteScreenX cos_a sin_a player_x player_y tanHalfFov s
  · rw [if_pos hskip]
    simp only [Bool.false_eq_true, false_iff]
    rintro ⟨c, hc1, hc2, _⟩
    have hc0 : (0 : ℤ) ≤ (c : ℤ) := Int.natCast_nonneg c
    have hcR : (c : ℤ) < spriteRectRight cos_a sin_a player_x player_y tanHalfFov s :=
      lt_of_lt_of_le hc2 (min_le_right _ _)
    have hcW : (c : ℤ) < SCREEN_WIDTH := lt_of_lt_of_le hc2 (min_le_left _ _)
    have hcL : spriteRectLeft cos_a sin_a player_x player_y tanHalfFov s ≤ (c : ℤ) :=
      le_trans (le_max_right _ _) hc1
    rw [hRL] at hcR
    rw [hLX] at hcL
    unfold SCREEN_WIDTH at hcW
    rcases hskip with h | h
    · omega
    · unfold SCREEN_WIDTH at h
      omega
  · rw [if_neg hskip]
    unfold is_sprite_visible
    have hElen : ¬ ((z.length : ℤ) <
        min SCREEN_WIDTH (spriteRectRight cos_a sin_a player_x player_y tanHalfFov s)) := by
      rw [hlen]
      exact not_lt.2 (min_le_left _ _)
    by_cases hempty : min SCREEN_WIDTH
        (spriteRectRight cos_a sin_a player_x player_y tanHalfFov s) ≤
        max 0 (spriteRectLeft cos_a sin_a player_x player_y tanHalfFov s)
    · rw [if_pos (Or.inl hempty)]
      simp only [Bool.false_eq_true, false_iff]
      rintro ⟨c, hc1, hc2, _⟩
      omega
    · rw [if_neg (not_or.2 ⟨hempty, hElen⟩)]
      exact slice_any_iff z _ _ _ (le_max_left _ _) (by rw [hlen]; exact min_le_left _ _)

/-- Witness for C2: a sprite five units ahead of the camera against an
all-infinity (wall-free) depth buffer of screen width. -/
theorem render_sprite_occlusion_witness :
    (((List.replicate 1280 Depth.inf).length : ℤ) = SCREEN_WIDTH ∧
      (5 : ℚ) ≤ MAX_RENDER_DISTANCE ∧
      1/10 < spriteCamY 1 0 0 0 (Sprite.mk 0 5)) ∧
    (render_sprite_blits (List.replicate 1280 Depth.inf) 1 0 0 0 (1/2) 5
        (Sprite.mk 0 5) = true ↔
      ∃ c : ℕ,
        max 0 (spriteRectLeft 1 0 0 0 (1/2) (Sprite.mk 0 5)) ≤ (c : ℤ) ∧
        (c : ℤ) < min SCREEN_WIDTH (spriteRectRight 1 0 0 0 (1/2) (Sprite.mk 0 5)) ∧
        depthLT (spriteCamY 1 0 0 0 (Sprite.mk 0 5))
          ((List.replicate 1280 Depth.inf).getD c Depth.inf) = true) := by
  have h1 : ((List.replicate 1280 Depth.inf).length : ℤ) = SCREEN_WIDTH := by
    rw [List.length_replicate]
    rfl
  have h2 : (5 : ℚ) ≤ MAX_RENDER_DISTANCE := by norm_num [MAX_RENDER_DISTANCE]
  have h3 : 1/10 < spriteCamY 1 0 0 0 (Sprite.mk 0 5) := by norm_num [spriteCamY]
  exact ⟨⟨h1, h2, h3⟩,
    render_sprite_occlusion (List.replicate 1280 Depth.inf) (Sprite.mk 0 5)
      1 0 0 0 (1/2) 5 h1 h2 h3⟩
